import Mathlib

/-!
Verification of the izs-llm pipeline-AST library (`app/models/ast_structure.py`,
`app/services/renderer.py`, `app/services/repair.py`, `app/services/agents.py`,
`app/utils/rendering.py`) against its natural-language specification.

The Python code is shallowly embedded: pydantic validators become functions
into `Except String`, raw JSON candidate trees become the `JVal` type, and the
repair loop becomes an explicit transition function.
-/

namespace IzsLLM

/-! ## Python string primitives -/

/-- Python whitespace (`str.strip`, regex `\s`) for the ASCII range. -/
def pyIsSpace (c : Char) : Bool :=
  c == ' ' || c == '\t' || c == '\n' || c == '\x0d' || c == '\x0b' || c == '\x0c'

/-- Python `str.strip()`: drop leading and trailing whitespace. -/
def pyStrip (s : String) : String :=
  ⟨(s.data.dropWhile pyIsSpace).reverse.dropWhile pyIsSpace |>.reverse⟩

/-- Substring test on char lists: Python `needle in hay` for strings. -/
def listIsSubstr (needle hay : List Char) : Bool :=
  match hay with
  | [] => needle.isEmpty
  | _ :: rest => needle.isPrefixOf hay || listIsSubstr needle rest

/-- Python `needle in hay` for strings. -/
def pySubstr (needle hay : String) : Bool :=
  listIsSubstr needle.data hay.data

/-- Python `s.startswith(pre)`. -/
def pyStartswith (s pre : String) : Bool :=
  pre.data.isPrefixOf s.data

/-- Number of occurrences of a character: Python `s.count(c)` for a 1-char `c`. -/
def countChar (s : String) (c : Char) : Nat :=
  s.data.countP (· == c)

/-- Python truthiness of an optional string: `None` and `""` are falsy. -/
def pyTruthyStr : Option String → Bool
  | none => false
  | some s => s ≠ ""

/-- Python `a or b` where `a` is an optional string and `b` a string. -/
def pyOrStr (a : Option String) (b : String) : String :=
  match a with
  | none => b
  | some s => if s = "" then b else s

/-- `[a-zA-Z0-9_]`, the ASCII word character class of the Python regexes. -/
def isWordChar (c : Char) : Bool :=
  c.isAlpha || c.isDigit || c == '_'

/-- Python `$` in `re.match` also matches just before one trailing newline;
`re.match(p + "$", v)` therefore ignores a single final `\n`. -/
def dollarStrip (s : String) : String :=
  match s.data.getLast? with
  | some c => if c = '\n' then ⟨s.data.dropLast⟩ else s
  | none => s

/-- Python `s.split(sep)` for a non-empty separator, on char lists.  The
`skip` counter consumes the remaining separator characters after a match, so
the recursion is structural. -/
def splitSkip (sep : List Char) : List Char → Nat → List Char → List (List Char)
  | [], _, cur => [cur.reverse]
  | _ :: rest, skip + 1, cur => splitSkip sep rest skip cur
  | c :: rest, 0, cur =>
    if sep.isPrefixOf (c :: rest) then
      cur.reverse :: splitSkip sep rest (sep.length - 1) []
    else splitSkip sep rest 0 (c :: cur)

/-- Python `s.split(sep)` (non-empty `sep`). -/
def pySplit (sep : String) (s : String) : List String :=
  (splitSkip sep.data s.data 0 []).map (⟨·⟩)

/-- Python `re.match(r'^[a-zA-Z_][a-zA-Z0-9_]*$', v)` as a Boolean. -/
def pyIdentMatch (v : String) : Bool :=
  match (dollarStrip v).data with
  | [] => false
  | c :: rest => (c.isAlpha || c == '_') && rest.all isWordChar

/-- Python `re.match(r'^[a-zA-Z_][\w\.]*$', v)` as a Boolean
(internal emit paths: identifier head, then word chars or dots). -/
def pyPathMatch (v : String) : Bool :=
  match (dollarStrip v).data with
  | [] => false
  | c :: rest => (c.isAlpha || c == '_') && rest.all (fun d => isWordChar d || d == '.')

/-- `target.split('.')[0]`: the root identifier before the first dot. -/
def rootOf (t : String) : String :=
  (pySplit "." t).headD ""

/-- Boolean test for `Except.ok`. -/
def exceptOk {α : Type} (e : Except String α) : Bool :=
  match e with
  | .ok _ => true
  | .error _ => false

/-! ## Data model (`ast_structure.py`), typed level

These mirror the pydantic models after successful field validation. -/

/-- `ImportItem` (spec name: ImportSpec). -/
structure ImportItem where
  module_path : String
  functions : List String
deriving Repr, DecidableEq

/-- `GlobalDef`. -/
structure GlobalDef where
  name : String
  value : String
deriving Repr, DecidableEq

/-- `NumericArg.value : Union[int, float, bool]` (float values do not occur in
any claim; integers and booleans are modelled). -/
inductive NumericValue where
  | int (n : Int)
  | bool (b : Bool)
deriving Repr, DecidableEq

/-- `ProcessArgument = Union[VarArg, StringArg, NumericArg]`
(tags `variable`, `string`, `numeric`; constructor names follow the classes). -/
inductive ProcessArgument where
  | varArg (name : String)
  | stringArg (value : String)
  | numericArg (value : NumericValue)
deriving Repr, DecidableEq

/-- `LogicOperator` (closure-only class: multiMap, branch, map). -/
structure LogicOperator where
  operator : String
  closure_lines : List String
  args : List String
deriving Repr, DecidableEq

/-- `ParametricOperator` (groupTuple, join, mix, concat). -/
structure ParametricOperator where
  operator : String
  args : List String
  closure_lines : List String
deriving Repr, DecidableEq

/-- `FlexibleOperator` (filter, unique, distinct, collect, cross, buffer). -/
structure FlexibleOperator where
  operator : String
  args : List String
  closure_lines : List String
deriving Repr, DecidableEq

/-- `StructuralOperator` (flatten, transpose). -/
structure StructuralOperator where
  operator : String
  args : List String
  closure_lines : List String
deriving Repr, DecidableEq

/-- `ChainOperator = Union[LogicOperator, ParametricOperator, FlexibleOperator, StructuralOperator]`. -/
inductive ChainOperator where
  | logic (op : LogicOperator)
  | parametric (op : ParametricOperator)
  | flexible (op : FlexibleOperator)
  | structural (op : StructuralOperator)
deriving Repr, DecidableEq

/-- `ProcessCall` (fields after validation). -/
structure ProcessCall where
  process_name : String
  args : List ProcessArgument
  assign_to : Option String
  output_attribute : Option String
deriving Repr, DecidableEq

/-- `ChannelChain`. -/
structure ChannelChain where
  start_variable : String
  steps : List ChainOperator
  set_variable : Option String
deriving Repr, DecidableEq

/-- `Assignment`.  The source field `variable` is spelt `var` here
(`variable` is a Lean keyword). -/
structure Assignment where
  var : String
  value : String
deriving Repr, DecidableEq

/-- `Statement = Union[ProcessCall, ChannelChain, Assignment, ConditionalBlock]`,
with `ConditionalBlock` carrying a condition string and a nested body. -/
inductive Statement where
  | processCall (pc : ProcessCall)
  | channelChain (cc : ChannelChain)
  | assignment (a : Assignment)
  | conditional (condition : String) (body : List Statement)

/-- `EmitItem`. -/
structure EmitItem where
  export_name : String
  internal_variable : Option String
deriving Repr, DecidableEq

/-- `NextflowProcess`. -/
structure NextflowProcess where
  name : String
  container : Option String
  input_declarations : List String
  output_declarations : List String
  script_block : String
deriving Repr, DecidableEq

/-- `NextflowWorkflow` (main workflow and sub-workflows). -/
structure NextflowWorkflow where
  name : String
  take_channels : List String
  body : List Statement
  emit_channels : List EmitItem

/-- `EntrypointWorkflow`. -/
structure EntrypointWorkflow where
  body : List Statement

/-- `NextflowPipelineAST`, the root model.  Its fields are exactly
`imports, globals, processes, sub_workflows, main_workflow, entrypoint`. -/
structure NextflowPipelineAST where
  imports : List ImportItem
  globals : List GlobalDef
  processes : List NextflowProcess
  sub_workflows : List NextflowWorkflow
  main_workflow : NextflowWorkflow
  entrypoint : EntrypointWorkflow

/-! ## Operator construction (`ast_structure.py` lines 70–123)

Raw construction input: `Option` marks a field that may be absent
(`Field(...)` is required; `Field(default=...)` substitutes the default;
`max_length` / `min_length` constrain a provided list). -/

def logicOperators : List String := ["multiMap", "branch", "map"]

def parametricOperators : List String := ["groupTuple", "join", "mix", "concat"]

def flexibleOperators : List String := ["filter", "unique", "distinct", "collect", "cross", "buffer"]

def structuralOperators : List String := ["flatten", "transpose"]

/-- `LogicOperator`: `closure_lines` is required (`Field(...)`, no `min_length`),
`args` defaults to `[]` with `max_length=0`. -/
def mkLogicOperator (operator : String) (closure_lines : Option (List String))
    (args : Option (List String)) : Except String LogicOperator :=
  if operator ∈ logicOperators then
    match closure_lines with
    | none => .error "Field required: closure_lines"
    | some cls =>
      let a := args.getD []
      if a.length ≤ 0 then .ok ⟨operator, cls, a⟩
      else .error "List should have at most 0 items: args"
  else .error "Input should be a valid logic operator literal"

/-- `ParametricOperator`: `args` required with `min_length=1`,
`closure_lines` defaults to `[]` with `max_length=0`. -/
def mkParametricOperator (operator : String) (args : Option (List String))
    (closure_lines : Option (List String)) : Except String ParametricOperator :=
  if operator ∈ parametricOperators then
    match args with
    | none => .error "Field required: args"
    | some a =>
      if a.length < 1 then .error "List should have at least 1 item: args"
      else
        let cls := closure_lines.getD []
        if cls.length ≤ 0 then .ok ⟨operator, a, cls⟩
        else .error "List should have at most 0 items: closure_lines"
  else .error "Input should be a valid parametric operator literal"

/-- `FlexibleOperator`: both fields default to `[]`; the after-validator
`validate_has_content` rejects `filter` when both are empty. -/
def mkFlexibleOperator (operator : String) (args : Option (List String))
    (closure_lines : Option (List String)) : Except String FlexibleOperator :=
  if operator ∈ flexibleOperators then
    let a := args.getD []
    let cls := closure_lines.getD []
    if a.isEmpty && cls.isEmpty && operator ∈ ["filter"] then
      .error "Operator requires either arguments or a closure block"
    else .ok ⟨operator, a, cls⟩
  else .error "Input should be a valid flexible operator literal"

/-- `StructuralOperator`: `args` defaults to `[]` (unconstrained),
`closure_lines` defaults to `[]` with `max_length=0`. -/
def mkStructuralOperator (operator : String) (args : Option (List String))
    (closure_lines : Option (List String)) : Except String StructuralOperator :=
  if operator ∈ structuralOperators then
    let a := args.getD []
    let cls := closure_lines.getD []
    if cls.length ≤ 0 then .ok ⟨operator, a, cls⟩
    else .error "List should have at most 0 items: closure_lines"
  else .error "Input should be a valid structural operator literal"

/-! ## `ImportItem` construction (`ast_structure.py` lines 48–61) -/

/-- `ImportItem.validate_aliases`: each entry containing `" as "` must split
into exactly two non-blank parts; entries are kept verbatim.  No validator
inspects `module_path`. -/
def validate_aliases : List String → Except String (List String)
  | [] => .ok []
  | func :: rest =>
    if pySubstr " as " func then
      let parts := pySplit " as " func
      if parts.length ≠ 2 ∨ pyStrip (parts.getD 0 "") = "" ∨ pyStrip (parts.getD 1 "") = "" then
        .error "Invalid alias format"
      else do
        let r ← validate_aliases rest
        .ok (func :: r)
    else do
      let r ← validate_aliases rest
      .ok (func :: r)

/-- `ImportItem` construction: both fields required; only `functions` is
validated (`validate_aliases`); `module_path` is accepted unchecked. -/
def mkImportItem (module_path : Option String) (functions : Option (List String)) :
    Except String ImportItem :=
  match module_path, functions with
  | none, _ => .error "Field required: module_path"
  | _, none => .error "Field required: functions"
  | some mp, some fns => do
    let f ← validate_aliases fns
    .ok ⟨mp, f⟩

/-! ## `ConditionalBlock.validate_groovy_condition` (`ast_structure.py` lines 311–337) -/

/-- `re.search(r'(?<!=)[^!<>]=\s', v)`: some position whose previous char is
not `=`, holding a char outside `!<>`, followed by `=` and whitespace. -/
def condEqRegex1 (prev : Option Char) : List Char → Bool
  | a :: b :: c :: rest =>
    (prev != some '=' && !(a == '!' || a == '<' || a == '>') && b == '=' && pyIsSpace c)
      || condEqRegex1 (some a) (b :: c :: rest)
  | _ => false

/-- `re.search(r'\s=[^=]', v)`: whitespace, then `=`, then a non-`=` char. -/
def condEqRegex2 : List Char → Bool
  | a :: b :: c :: rest =>
    (pyIsSpace a && b == '=' && c != '=') || condEqRegex2 (b :: c :: rest)
  | _ => false

/-- `ConditionalBlock.validate_groovy_condition`: strip, reject empty, reject
unbalanced parentheses, then reject on either single-`=` heuristic regex. -/
def validate_groovy_condition (v0 : String) : Except String String :=
  let v := pyStrip v0
  if v = "" then .error "Condition string cannot be empty."
  else if countChar v '(' ≠ countChar v ')' then
    .error "SYNTAX ERROR: Unbalanced parentheses in condition"
  else if condEqRegex1 none v.data || condEqRegex2 v.data then
    .error "POSSIBLE SYNTAX ERROR: condition uses single equals sign"
  else .ok v

/-- Modelled from the spec (C10): the condition "contains a bare single `=`
that is not part of `==`, `!=`, `<=` or `>=`" — some `=` whose previous char
is none of `=!<>` and whose next char is not `=`. -/
def bareSingleEq (prev : Option Char) : List Char → Bool
  | [] => false
  | c :: rest =>
    (c == '=' && prev != some '=' && prev != some '!' && prev != some '<' && prev != some '>'
        && rest.head? != some '=')
      || bareSingleEq (some c) rest

/-! ## `ProcessCall` construction (`ast_structure.py` lines 218–290) -/

/-- `ProcessCall` after-validators: `validate_process_call_logic` (a `step_*`
call needs arguments; an output accessor needs a result binding), then
`validate_naming_conventions` (a truthy `assign_to` must be an identifier). -/
def mkProcessCall (process_name : String) (args : List ProcessArgument)
    (assign_to : Option String) (output_attribute : Option String) :
    Except String ProcessCall :=
  if pyStartswith process_name "step_" && args.isEmpty then
    .error "LOGIC ERROR: process has no arguments"
  else if pyTruthyStr output_attribute && !pyTruthyStr assign_to then
    .error "INVALID AST: output_attribute specified without assign_to"
  else if pyTruthyStr assign_to && !pyIdentMatch (assign_to.getD "") then
    .error "INVALID VARIABLE NAME"
  else .ok ⟨process_name, args, assign_to, output_attribute⟩

/-! ## `EmitItem` construction (`ast_structure.py` lines 344–417) -/

/-- `EmitItem` construction: the `handle_implicit_shorthand` before-validator
(dotted export with falsy internal source becomes
`(last path segment, full dotted string)`), then `validate_export_name`
(bare identifier) and `validate_internal_source` (strip; non-empty; dotted
identifier path). -/
def mkEmitItem (export_name0 : String) (internal_variable0 : Option String) :
    Except String EmitItem :=
  let shorthand :=
    if pySubstr "." export_name0 && !pyTruthyStr internal_variable0 then
      ((pySplit "." export_name0).getLastD "", some export_name0)
    else (export_name0, internal_variable0)
  let export_name := shorthand.1
  let internal_variable := shorthand.2
  if !pyIdentMatch export_name then .error "SYNTAX ERROR: invalid export name"
  else
    match internal_variable with
    | none => .ok ⟨export_name, none⟩
    | some v0 =>
      let v := pyStrip v0
      if v = "" then .error "Internal variable path cannot be empty."
      else if !pyPathMatch v then .error "SYNTAX ERROR: invalid internal variable path"
      else .ok ⟨export_name, some v⟩

/-! ## `NextflowWorkflow` after-validators (`ast_structure.py` lines 451–497) -/

/-- The statement loop of `NextflowWorkflow.auto_fix_emits`: a `ProcessCall`
with truthy `output_attribute` and falsy `assign_to` synthesizes an
`EmitItem` (export = accessor, or `out` for `*`; internal =
`name.out.accessor`) unless an emit with that export name already exists,
then clears the accessor. -/
def autoFixEmitsGo : List Statement → List EmitItem →
    Except String (List Statement × List EmitItem)
  | [], emits => .ok ([], emits)
  | .processCall pc :: rest, emits =>
    if pyTruthyStr pc.output_attribute && !pyTruthyStr pc.assign_to then
      let attr := pc.output_attribute.getD ""
      let internal := pc.process_name ++ ".out." ++ attr
      let exportName := if attr = "*" then "out" else attr
      do
        let emits2 ←
          if emits.any (fun e => e.export_name = exportName) then pure emits
          else do
            let e ← mkEmitItem exportName (some internal)
            pure (emits ++ [e])
        let pc2 : ProcessCall := { pc with output_attribute := none }
        let (rest2, emits3) ← autoFixEmitsGo rest emits2
        pure (.processCall pc2 :: rest2, emits3)
    else do
      let (rest2, emits2) ← autoFixEmitsGo rest emits
      pure (.processCall pc :: rest2, emits2)
  | stmt :: rest, emits => do
    let (rest2, emits2) ← autoFixEmitsGo rest emits
    pure (stmt :: rest2, emits2)

/-- `NextflowWorkflow.auto_fix_emits`. -/
def NextflowWorkflow.auto_fix_emits (w : NextflowWorkflow) :
    Except String NextflowWorkflow := do
  let (body2, emits2) ← autoFixEmitsGo w.body w.emit_channels
  pure { w with body := body2, emit_channels := emits2 }

/-- The definition-harvesting loop of `NextflowWorkflow.validate_scope`:
seed with `take_channels`, then add assignment targets, truthy call
result-bindings, every called name, and truthy chain result-bindings, over
the whole top-level body (conditional bodies are not visited). -/
def scopeDefined (w : NextflowWorkflow) : List String :=
  w.body.foldl (fun acc stmt =>
    match stmt with
    | .assignment a => acc ++ [a.var]
    | .processCall pc =>
      (if pyTruthyStr pc.assign_to then acc ++ [pc.assign_to.getD ""] else acc)
        ++ [pc.process_name]
    | .channelChain cc =>
      if pyTruthyStr cc.set_variable then acc ++ [cc.set_variable.getD ""] else acc
    | .conditional _ _ => acc) w.take_channels

/-- The emit-checking loop of `validate_scope`: each emit's effective target
(`internal_variable or export_name`) must have its root (before the first
dot) among the harvested definitions. -/
def checkEmits (defined : List String) : List EmitItem → Except String Unit
  | [] => .ok ()
  | e :: rest =>
    let target := pyOrStr e.internal_variable e.export_name
    if rootOf target ∈ defined then checkEmits defined rest
    else .error "SCOPE ERROR: emit target undefined"

/-- `NextflowWorkflow.validate_scope`. -/
def NextflowWorkflow.validate_scope (w : NextflowWorkflow) :
    Except String NextflowWorkflow := do
  let _ ← checkEmits (scopeDefined w) w.emit_channels
  pure w

/-- The `NextflowWorkflow` after-validator chain, in definition order:
`auto_fix_emits`, then `validate_scope`. -/
def NextflowWorkflow.runValidators (w : NextflowWorkflow) :
    Except String NextflowWorkflow := do
  let w2 ← w.auto_fix_emits
  w2.validate_scope

/-! ## Spec-side scope model (for C3) -/

/-- Modelled from the spec (C3): a reference root is the text before the
first `.` or `(`. -/
def specRootId (t : String) : String :=
  ⟨t.data.takeWhile (fun c => c ≠ '.' && c ≠ '(')⟩

/-- Modelled from the spec (C3): the references a statement makes — variable
arguments of a call and a chain start expression. -/
def specStatementRefs : Statement → List String
  | .processCall pc =>
    pc.args.filterMap (fun a =>
      match a with
      | .varArg n => some n
      | _ => none)
  | .channelChain cc => [cc.start_variable]
  | .assignment _ => []
  | .conditional _ _ => []

/-- Modelled from the spec (C3): the names a statement binds for the
statements after it — assignment target, call result-binding and called
name, chain result-binding. -/
def specBinds : Statement → List String
  | .assignment a => [a.var]
  | .processCall pc =>
    (match pc.assign_to with | some v => [v] | none => []) ++ [pc.process_name]
  | .channelChain cc => (match cc.set_variable with | some v => [v] | none => [])
  | .conditional _ _ => []

/-- Modelled from the spec (C3): scan the body in order; every reference must
have its root already bound by an earlier statement or in the initial scope
(declared inputs, global constants, alias-resolved imports, sibling names);
nested conditional bodies are checked against the scope at their position. -/
def specScopeOk (scope : List String) : List Statement → Bool
  | [] => true
  | stmt :: rest =>
    ((specStatementRefs stmt).all (fun r => specRootId r ∈ scope) &&
      (match stmt with
       | .conditional _ body => specScopeOk scope body
       | _ => true))
    && specScopeOk (scope ++ specBinds stmt) rest

/-- The workflow of the C3 counterexample: one call whose variable argument
`ghost` is never bound anywhere. -/
def c3Workflow : NextflowWorkflow :=
  ⟨"w", [], [.processCall ⟨"p", [.varArg "ghost"], none, none⟩], []⟩

/-- The workflow of the C6 counterexample: a call with both a result binding
and a named-output accessor, and no emits. -/
def c6Workflow : NextflowWorkflow :=
  ⟨"w", [], [.processCall ⟨"p", [], some "x", some "bam"⟩], []⟩

/-! ## Root model validators (`ast_structure.py` lines 546–673) -/

/-- Python `s.lower()` (ASCII). -/
def pyLower (s : String) : String :=
  ⟨s.data.map Char.toLower⟩

/-- The field names of the root model `NextflowPipelineAST` — the attributes
an instance actually has. -/
def NextflowPipelineAST.fieldNames : List String :=
  ["imports", "globals", "processes", "sub_workflows", "main_workflow", "entrypoint"]

/-- The process loop of `validate_prepare_inputs_location`: an inline process
with no input and no output declarations whose lowercased name contains
`prepare` or `logic` is rejected. -/
def prepareLocCheck : List NextflowProcess → Except String Unit
  | [] => .ok ()
  | p :: rest =>
    if p.input_declarations.isEmpty && p.output_declarations.isEmpty &&
        (pySubstr "prepare" (pyLower p.name) || pySubstr "logic" (pyLower p.name)) then
      .error "looks like logic but is defined as a Process"
    else prepareLocCheck rest

/-- `NextflowPipelineAST.validate_prepare_inputs_location`. -/
def NextflowPipelineAST.validate_prepare_inputs_location (ast : NextflowPipelineAST) :
    Except String NextflowPipelineAST :=
  match prepareLocCheck ast.processes with
  | .error e => .error e
  | .ok _ => .ok ast

/-- `NextflowPipelineAST.ensure_entrypoint_connectivity`: an empty entrypoint
body together with a zero-input main workflow appends a niladic call to the
main workflow (built through `ProcessCall` construction, which can itself
fail). -/
def NextflowPipelineAST.ensure_entrypoint_connectivity (ast : NextflowPipelineAST) :
    Except String NextflowPipelineAST :=
  if ast.entrypoint.body.isEmpty then
    if ast.main_workflow.take_channels.isEmpty then
      match mkProcessCall ast.main_workflow.name [] none none with
      | .error e => .error e
      | .ok call =>
        .ok { ast with entrypoint := ⟨ast.entrypoint.body ++ [.processCall call]⟩ }
    else .ok ast
  else .ok ast

/-- The root-level `auto_fix_emits` (lines 634–646): its first action is
`for stmt in self.body`, but `body` is not a field of the root model
(see `NextflowPipelineAST.fieldNames`), so attribute lookup raises
`AttributeError` before anything else can happen. -/
def NextflowPipelineAST.auto_fix_emits (_ast : NextflowPipelineAST) :
    Except String NextflowPipelineAST :=
  if h : "body" ∈ NextflowPipelineAST.fieldNames then absurd h (by decide)
  else .error "AttributeError: NextflowPipelineAST object has no attribute body"

/-- The root-level `validate_and_prune_scope` (lines 648–673): its first
action is `set(self.take_channels)`, but `take_channels` is not a field of
the root model, so attribute lookup raises `AttributeError`. -/
def NextflowPipelineAST.validate_and_prune_scope (_ast : NextflowPipelineAST) :
    Except String NextflowPipelineAST :=
  if h : "take_channels" ∈ NextflowPipelineAST.fieldNames then absurd h (by decide)
  else .error "AttributeError: NextflowPipelineAST object has no attribute take_channels"

/-- The root after-validator chain in definition order:
`validate_prepare_inputs_location`, `ensure_entrypoint_connectivity`,
`auto_fix_emits`, `validate_and_prune_scope`; each runs only if the previous
one succeeded. -/
def NextflowPipelineAST.runAfterValidators (ast : NextflowPipelineAST) :
    Except String NextflowPipelineAST :=
  match ast.validate_prepare_inputs_location with
  | .error e => .error e
  | .ok a1 =>
    match a1.ensure_entrypoint_connectivity with
    | .error e => .error e
    | .ok a2 =>
      match a2.auto_fix_emits with
      | .error e => .error e
      | .ok a3 => a3.validate_and_prune_scope

/-! ## Program renderer (`renderer.py` lines 8–28, `rendering.py`) -/

/-- Python `sep.join(xs)`. -/
def pyJoin (sep : String) (xs : List String) : String :=
  match xs with
  | [] => ""
  | x :: rest => rest.foldl (fun acc y => acc ++ sep ++ y) x

/-- The template variables bound by `t.render(**data)` in
`render_nextflow_code`: `data` is `ast.model_dump()`, whose keys are exactly
the root model field names. -/
def templateVars : List String := NextflowPipelineAST.fieldNames

/-- The imports block of `NF_TEMPLATE_AST`:
`include { fns } from 'path'` per import. -/
def renderImportsBlock (imports : List ImportItem) : String :=
  String.join (imports.map (fun imp =>
    "include \x7b " ++ pyJoin "; " imp.functions ++ " \x7d from " ++ imp.module_path ++ "\n"))

/-- The globals block of `NF_TEMPLATE_AST`: `def name = value` per global. -/
def renderGlobalsBlock (globals : List GlobalDef) : String :=
  String.join (globals.map (fun g => "def " ++ g.name ++ " = " ++ g.value ++ "\n"))

/-- `render_nextflow_code`: after the header, imports and globals blocks the
template reaches `for proc in inline_processes`.  `inline_processes` is not
among the variables bound by `t.render(**data)` (the model field is named
`processes`), so the loop iterates a Jinja2 `Undefined`, which raises
`UndefinedError` and aborts the whole rendering. -/
def render_nextflow_code (ast : NextflowPipelineAST) : Except String String :=
  let _header := "\nnextflow.enable.dsl=2\n\n"
  let _importsBlock := renderImportsBlock ast.imports
  let _globalsBlock := renderGlobalsBlock ast.globals
  if h : "inline_processes" ∈ templateVars then absurd h (by decide)
  else .error "UndefinedError: inline_processes is undefined"

/-! ## Repair loop (`repair.py`, `agents.py`, `graph.py`) -/

/-- The loop-relevant part of `GraphState`. -/
structure LoopState where
  validation_error : Option String
  retries : Nat
deriving Repr, DecidableEq

/-- The routes returned by `should_repair`. -/
inductive Route where
  | success
  | repair
  | fail
deriving Repr, DecidableEq

/-- `MAX_RETRIES` in `should_repair`. -/
def MAX_RETRIES : Nat := 3

/-- `should_repair`: no (truthy) error routes to `success`; an error with
`retries >= MAX_RETRIES` routes to `fail`; otherwise `repair`. -/
def should_repair (s : LoopState) : Route :=
  if !pyTruthyStr s.validation_error then .success
  else if s.retries ≥ MAX_RETRIES then .fail
  else .repair

/-- One generation attempt (`architect_node`): on success it stores
`validation_error = None` leaving `retries` unchanged; on a validation
failure it stores the error string and increments `retries`. -/
def architect_attempt (outcome : Option String) (s : LoopState) : LoopState :=
  match outcome with
  | none => { s with validation_error := none }
  | some e => { validation_error := some e, retries := s.retries + 1 }

/-- Terminal states of one run. -/
inductive LoopResult where
  | succeeded (retries : Nat)
  | failed (retries : Nat)
deriving Repr, DecidableEq

/-- The architect/repair cycle wired in `build_graph`: run an attempt, route
with `should_repair`; `success` hands the tree to the renderer node,
`fail` ends the graph, `repair` appends the repair instruction and loops
back to the architect.  `none` means the supplied outcome trace ran out. -/
def runLoop : List (Option String) → LoopState → Option LoopResult
  | [], _ => none
  | o :: rest, s =>
    let s2 := architect_attempt o s
    match should_repair s2 with
    | .success => some (.succeeded s2.retries)
    | .fail => some (.failed s2.retries)
    | .repair => runLoop rest s2

/-- The initial state: no validation error, `retries = 0`. -/
def initialLoopState : LoopState := ⟨none, 0⟩

/-! ## MD5 (`hashlib.md5`) and the diagram node-id function
(`renderer.py` lines 37–43)

MD5 is implemented over `Nat` with explicit `% 2^32` masking. -/

/-- 32-bit modular addition. -/
def add32 (a b : Nat) : Nat := (a + b) % 4294967296

/-- 32-bit complement. -/
def not32 (x : Nat) : Nat := 4294967295 ^^^ (x % 4294967296)

/-- 32-bit left rotation. -/
def rotl32 (x s : Nat) : Nat :=
  (((x % 4294967296) <<< s) ||| ((x % 4294967296) >>> (32 - s))) % 4294967296

/-- UTF-8 encoding of one character (`str.encode()`). -/
def utf8Bytes (c : Char) : List Nat :=
  let n := c.toNat
  if n < 128 then [n]
  else if n < 2048 then [192 ||| (n >>> 6), 128 ||| (n &&& 63)]
  else if n < 65536 then
    [224 ||| (n >>> 12), 128 ||| ((n >>> 6) &&& 63), 128 ||| (n &&& 63)]
  else
    [240 ||| (n >>> 18), 128 ||| ((n >>> 12) &&& 63),
      128 ||| ((n >>> 6) &&& 63), 128 ||| (n &&& 63)]

/-- `str(s).encode()`: the UTF-8 bytes of a string. -/
def strBytes (s : String) : List Nat :=
  (s.data.map utf8Bytes).flatten

/-- `k` little-endian bytes of `n`. -/
def leBytes (n : Nat) : Nat → List Nat
  | 0 => []
  | k + 1 => (n % 256) :: leBytes (n / 256) k

/-- MD5 padding: append `0x80`, zero-pad to 56 mod 64, then the bit length
as 8 little-endian bytes. -/
def md5Pad (msg : List Nat) : List Nat :=
  let z := (64 + 56 - ((msg.length + 1) % 64)) % 64
  msg ++ [128] ++ List.replicate z 0 ++ leBytes ((msg.length * 8) % 18446744073709551616) 8

/-- Split off the first `n` elements. -/
def takeDropN : Nat → List Nat → (List Nat × List Nat)
  | 0, l => ([], l)
  | _ + 1, [] => ([], [])
  | n + 1, x :: rest =>
    let (a, b) := takeDropN n rest
    (x :: a, b)

/-- Split a padded message into 64-byte chunks (the fuel bounds the number of
chunks; `fuel = length` always suffices). -/
def chunksGo : Nat → List Nat → List (List Nat)
  | _, [] => []
  | 0, l => [l]
  | fuel + 1, l =>
    let (c, rest) := takeDropN 64 l
    c :: chunksGo fuel rest

/-- The 16 little-endian 32-bit words of a 64-byte chunk. -/
def chunkWords (c : List Nat) : List Nat :=
  (List.range 16).map (fun i =>
    c.getD (4 * i) 0 + c.getD (4 * i + 1) 0 * 256 +
      c.getD (4 * i + 2) 0 * 65536 + c.getD (4 * i + 3) 0 * 16777216)

/-- The MD5 sine-derived constant table. -/
def md5K : List Nat :=
  [0xd76aa478, 0xe8c7b756, 0x242070db, 0xc1bdceee,
   0xf57c0faf, 0x4787c62a, 0xa8304613, 0xfd469501,
   0x698098d8, 0x8b44f7af, 0xffff5bb1, 0x895cd7be,
   0x6b901122, 0xfd987193, 0xa679438e, 0x49b40821,
   0xf61e2562, 0xc040b340, 0x265e5a51, 0xe9b6c7aa,
   0xd62f105d, 0x02441453, 0xd8a1e681, 0xe7d3fbc8,
   0x21e1cde6, 0xc33707d6, 0xf4d50d87, 0x455a14ed,
   0xa9e3e905, 0xfcefa3f8, 0x676f02d9, 0x8d2a4c8a,
   0xfffa3942, 0x8771f681, 0x6d9d6122, 0xfde5380c,
   0xa4beea44, 0x4bdecfa9, 0xf6bb4b60, 0xbebfbc70,
   0x289b7ec6, 0xeaa127fa, 0xd4ef3085, 0x04881d05,
   0xd9d4d039, 0xe6db99e5, 0x1fa27cf8, 0xc4ac5665,
   0xf4292244, 0x432aff97, 0xab9423a7, 0xfc93a039,
   0x655b59c3, 0x8f0ccc92, 0xffeff47d, 0x85845dd1,
   0x6fa87e4f, 0xfe2ce6e0, 0xa3014314, 0x4e0811a1,
   0xf7537e82, 0xbd3af235, 0x2ad7d2bb, 0xeb86d391]

/-- The MD5 per-round shift table. -/
def md5S : List Nat :=
  [7, 12, 17, 22, 7, 12, 17, 22, 7, 12, 17, 22, 7, 12, 17, 22,
   5, 9, 14, 20, 5, 9, 14, 20, 5, 9, 14, 20, 5, 9, 14, 20,
   4, 11, 16, 23, 4, 11, 16, 23, 4, 11, 16, 23, 4, 11, 16, 23,
   6, 10, 15, 21, 6, 10, 15, 21, 6, 10, 15, 21, 6, 10, 15, 21]

/-- One MD5 operation. -/
def md5Round (m : List Nat) (state : Nat × Nat × Nat × Nat) (i : Nat) :
    Nat × Nat × Nat × Nat :=
  let (a, b, c, d) := state
  let fg : Nat × Nat :=
    if i < 16 then ((b &&& c) ||| (not32 b &&& d), i)
    else if i < 32 then ((d &&& b) ||| (not32 d &&& c), (5 * i + 1) % 16)
    else if i < 48 then (b ^^^ c ^^^ d, (3 * i + 5) % 16)
    else (c ^^^ (b ||| not32 d), (7 * i) % 16)
  let tmp := add32 a (add32 fg.1 (add32 (md5K.getD i 0) (m.getD fg.2 0)))
  (d, add32 b (rotl32 tmp (md5S.getD i 0)), b, c)

/-- Process one 64-byte chunk. -/
def md5Chunk (state : Nat × Nat × Nat × Nat) (m : List Nat) :
    Nat × Nat × Nat × Nat :=
  let r := (List.range 64).foldl (md5Round m) state
  (add32 state.1 r.1, add32 state.2.1 r.2.1, add32 state.2.2.1 r.2.2.1,
    add32 state.2.2.2 r.2.2.2)

/-- The 16-byte MD5 digest of a byte string. -/
def md5Digest (msg : List Nat) : List Nat :=
  let padded := md5Pad msg
  let r := (chunksGo padded.length padded).foldl
    (fun st ch => md5Chunk st (chunkWords ch))
    (0x67452301, 0xefcdab89, 0x98badcfe, 0x10325476)
  leBytes r.1 4 ++ leBytes r.2.1 4 ++ leBytes r.2.2.1 4 ++ leBytes r.2.2.2 4

/-- One lowercase hex digit. -/
def hexDigit (n : Nat) : Char :=
  if n < 10 then Char.ofNat (48 + n) else Char.ofNat (87 + n)

/-- `hashlib.md5(s.encode()).hexdigest()`. -/
def md5Hex (s : String) : String :=
  ⟨((md5Digest (strBytes s)).map (fun b => [hexDigit (b / 16), hexDigit (b % 16)])).flatten⟩

/-- The character class `[\$\{\}\(\)\.\s\-\[\]\'\",]` replaced by `_` in
`make_id`. -/
def makeIdBadChar (c : Char) : Bool :=
  c == '$' || c == '\x7b' || c == '\x7d' || c == '(' || c == ')' || c == '.' ||
    pyIsSpace c || c == '-' || c == '[' || c == ']' || c == '\'' || c == '"' || c == ','

/-- The sanitizing substitution of `make_id`. -/
def sanitizeId (name : String) : String :=
  ⟨name.data.map (fun c => if makeIdBadChar c then '_' else c)⟩

/-- The hash-fallback condition of `make_id`: sanitized result longer than
30, or starting with `_` or a digit. -/
def hashFallback (clean : String) : Bool :=
  30 < clean.length || pyStartswith clean "_" || (clean.data.headD ' ').isDigit

/-- `make_id` (diagram renderer): empty name gives `Unknown`; otherwise the
sanitized name, except that the fallback condition substitutes
`node_` plus the first 6 hex digits of the MD5 of the original name. -/
def make_id (name : String) : String :=
  if name = "" then "Unknown"
  else
    let clean := sanitizeId name
    if hashFallback clean then "node_" ++ ⟨(md5Hex name).data.take 6⟩
    else clean

/-! ## Raw candidate trees (`JVal`) and Python dict/str primitives

The canonicalization passes of C7 run on raw JSON-like statement/emit
dictionaries before strict construction, so they are embedded over a JSON
value type.  Python exceptions (`AttributeError`, `TypeError`) are modelled
as `Except.error`. -/

/-- JSON-like Python values (floats do not occur in any claim). -/
inductive JVal where
  | null
  | bool (b : Bool)
  | int (n : Int)
  | str (s : String)
  | arr (xs : List JVal)
  | obj (fields : List (String × JVal))

mutual

/-- Structural equality of values, modelling Python `==` (the canonicalizer
preserves dict key order, so pointwise field comparison agrees with Python
dict equality on its inputs and outputs; the int/bool conflation of Python
`==` is not modelled). -/
def beqJVal : JVal → JVal → Bool
  | .null, .null => true
  | .bool a, .bool b => a == b
  | .int a, .int b => a == b
  | .str a, .str b => a == b
  | .arr a, .arr b => beqJList a b
  | .obj a, .obj b => beqJObj a b
  | _, _ => false

/-- Pointwise list equality. -/
def beqJList : List JVal → List JVal → Bool
  | [], [] => true
  | a :: as2, b :: bs2 => beqJVal a b && beqJList as2 bs2
  | _, _ => false

/-- Pointwise field-list equality. -/
def beqJObj : List (String × JVal) → List (String × JVal) → Bool
  | [], [] => true
  | (k1, v1) :: r1, (k2, v2) :: r2 => k1 == k2 && beqJVal v1 v2 && beqJObj r1 r2
  | _, _ => false

end

/-- Python truthiness of a value. -/
def pyTruthy : JVal → Bool
  | .null => false
  | .bool b => b
  | .int n => n ≠ 0
  | .str s => s ≠ ""
  | .arr xs => !xs.isEmpty
  | .obj fs => !fs.isEmpty

/-- Python truthiness where `none` models Python `None`. -/
def pyTruthyOpt : Option JVal → Bool
  | none => false
  | some v => pyTruthy v

/-- Python `a or b`. -/
def pyOr (a b : JVal) : JVal :=
  if pyTruthy a then a else b

/-- `d.get(k)` on a dict field list (first matching key). -/
def objGet (fs : List (String × JVal)) (k : String) : Option JVal :=
  (fs.find? (fun p => p.1 == k)).map (·.2)

/-- `d[k] = v`: replace the first binding of `k` in place, else append. -/
def objSet : List (String × JVal) → String → JVal → List (String × JVal)
  | [], k, v => [(k, v)]
  | (k2, v2) :: rest, k, v =>
    if k2 == k then (k, v) :: rest else (k2, v2) :: objSet rest k v

/-- `d.get('type') == t` for a string literal `t`. -/
def typeIs (fs : List (String × JVal)) (t : String) : Bool :=
  match objGet fs "type" with
  | some (.str s) => s == t
  | _ => false

/-- Simplified Python `repr` of a string: double quotes when the text holds a
single quote but no double quote, else single quotes (escape sequences for
embedded quotes are not modelled; they affect no claim). -/
def pyReprStr (s : String) : String :=
  let q := String.singleton '\''
  if pySubstr q s && !pySubstr "\"" s then "\"" ++ s ++ "\""
  else q ++ s ++ q

mutual

/-- Python `repr` of a value. -/
def pyRepr : JVal → String
  | .null => "None"
  | .bool b => if b then "True" else "False"
  | .int n => toString n
  | .str s => pyReprStr s
  | .arr xs => "[" ++ pyJoin ", " (pyReprList xs) ++ "]"
  | .obj fs => "\x7b" ++ pyJoin ", " (pyReprObj fs) ++ "\x7d"

/-- `repr` of list elements. -/
def pyReprList : List JVal → List String
  | [] => []
  | x :: rest => pyRepr x :: pyReprList rest

/-- `repr` of dict items. -/
def pyReprObj : List (String × JVal) → List String
  | [] => []
  | (k, v) :: rest => (pyReprStr k ++ ": " ++ pyRepr v) :: pyReprObj rest

end

/-- Python `str()` of a value. -/
def pyStr : JVal → String
  | .str s => s
  | v => pyRepr v

/-- Python iteration (`for x in v`): lists yield elements, strings their
characters, dicts their keys; other values raise `TypeError`. -/
def pyIterElems : JVal → Except String (List JVal)
  | .arr xs => .ok xs
  | .str s => .ok (s.data.map (fun c => .str (String.singleton c)))
  | .obj fs => .ok (fs.map (fun p => .str p.1))
  | _ => .error "TypeError: object is not iterable"

/-- Python `needle in container` for a string needle: substring on strings,
membership on lists/dicts, `TypeError` otherwise. -/
def pyInStr (needle : String) : JVal → Except String Bool
  | .str s => .ok (pySubstr needle s)
  | .arr xs => .ok (xs.any (fun j => beqJVal j (.str needle)))
  | .obj fs => .ok (fs.any (fun p => p.1 == needle))
  | _ => .error "TypeError: argument is not iterable"

/-! ## Lazy-call repair (`repair_lazy_calls`, `ast_structure.py` lines 5–46) -/

/-- The suffix group `(\.[a-zA-Z0-9_]+)?$`: empty, or a dot then a non-empty
word run. -/
def validTail : List Char → Bool
  | [] => true
  | '.' :: w => !w.isEmpty && w.all isWordChar
  | _ => false

/-- Greedy `(.*)\)` with the optional-suffix tail: split at the *last* `)`
whose tail is valid, maximizing the inner text. -/
def lastParenSplit : List Char → Option (List Char × List Char)
  | [] => none
  | c :: rest =>
    match lastParenSplit rest with
    | some (inner, tail) => some (c :: inner, tail)
    | none => if c = ')' && validTail rest then some ([], rest) else none

/-- `re.match(r'^([a-zA-Z0-9_]+)\s*\((.*)\)(\.[a-zA-Z0-9_]+)?$', val)`:
returns (process name, raw argument text, optional accessor). -/
def lazyCallMatch (val : String) : Option (String × String × Option String) :=
  let cs := val.data
  let name := cs.takeWhile isWordChar
  if name.isEmpty then none
  else
    match (cs.dropWhile isWordChar).dropWhile pyIsSpace with
    | '(' :: r =>
      match lastParenSplit r with
      | some (inner, tail) =>
        some (⟨name⟩, ⟨inner⟩,
          match tail with
          | '.' :: w => some ⟨w⟩
          | _ => none)
      | none => none
    | _ => none

/-- The known tool-prefix markers: `any(x in val for x in [...])`. -/
def hasToolMarker (val : String) : Bool :=
  pySubstr "step_" val || pySubstr "prepare_" val || pySubstr "module_" val ||
    pySubstr "get" val

/-- The `process_call` dict built by `repair_lazy_calls` for a matched lazy
assignment. -/
def lazyCallStmt (procName rawArgs : String) (suffix : Option String)
    (assignTo : JVal) : JVal :=
  let argsList :=
    if pyStrip rawArgs = "" then []
    else (pySplit "," rawArgs).map (fun a => JVal.str (pyStrip a))
  .obj [("type", .str "process_call"),
        ("process_name", .str procName),
        ("args", .arr argsList),
        ("assign_to", assignTo),
        ("output_attribute", match suffix with | some a => .str a | none => .null)]

mutual

/-- `repair_lazy_calls(statements)`: non-lists pass through; list elements
are rewritten one by one. -/
def repair_lazy_calls : JVal → Except String JVal
  | .arr stmts =>
    match repairStmtList stmts with
    | .error e => .error e
    | .ok r => .ok (.arr r)
  | other => .ok other

/-- The statement loop of `repair_lazy_calls` (nothing is dropped). -/
def repairStmtList : List JVal → Except String (List JVal)
  | [] => .ok []
  | stmt :: rest =>
    match repairStmt stmt with
    | .error e => .error e
    | .ok s2 =>
      match repairStmtList rest with
      | .error e => .error e
      | .ok r2 => .ok (s2 :: r2)

/-- One statement of `repair_lazy_calls`: a `conditional` dict gets its
`body` recursively repaired in place; an `assignment` dict whose stripped
string value matches the lazy-call pattern and carries a tool marker becomes
a `process_call` dict; everything else passes through (a non-string
assignment value raises `AttributeError` on `.strip()`). -/
def repairStmt : JVal → Except String JVal
  | .obj fs =>
    if typeIs fs "conditional" then
      match repairFields fs with
      | .error e => .error e
      | .ok fs2 => .ok (.obj fs2)
    else if typeIs fs "assignment" then
      match (objGet fs "value").getD (.str "") with
      | .str valRaw =>
        let val := pyStrip valRaw
        (match lazyCallMatch val with
         | some (procName, rawArgs, suffix) =>
           if hasToolMarker val then
             .ok (lazyCallStmt procName rawArgs suffix ((objGet fs "variable").getD .null))
           else .ok (.obj fs)
         | none => .ok (.obj fs))
      | _ => .error "AttributeError: value has no attribute strip"
    else .ok (.obj fs)
  | v => .ok v

/-- `stmt['body'] = repair_lazy_calls(stmt.get('body', []))`, fused into one
walk: repair the first `body` binding in place, or append a repaired empty
body (`repair_lazy_calls([]) = []`) when the key is absent. -/
def repairFields : List (String × JVal) → Except String (List (String × JVal))
  | [] => .ok [("body", .arr [])]
  | (k, v) :: rest =>
    if k == "body" then
      match repair_lazy_calls v with
      | .error e => .error e
      | .ok v2 => .ok ((k, v2) :: rest)
    else
      match repairFields rest with
      | .error e => .error e
      | .ok rest2 => .ok ((k, v) :: rest2)

end

/-! ## Deduplication (`NextflowPipelineAST.deduplicate_logic`,
`ast_structure.py` lines 546–608) -/

/-- `next((inp for inp in inputs if inp in arg_val), None)`: the first input
that is a substring of the argument text; a non-string input reached before
a match raises `TypeError`. -/
def findSubstrMatch : List JVal → String → Except String (Option JVal)
  | [], _ => .ok none
  | .str s :: rest, hay =>
    if pySubstr s hay then .ok (some (.str s)) else findSubstrMatch rest hay
  | _ :: _, _ => .error "TypeError: in requires string as left operand"

/-- `str(arg.get('name') or arg.get('value') or "") if isinstance(arg, dict)
else str(arg)`. -/
def argValOf (arg : JVal) : String :=
  match arg with
  | .obj afs =>
    pyStr (pyOr ((objGet afs "name").getD .null)
      (pyOr ((objGet afs "value").getD .null) (.str "")))
  | other => pyStr other

/-- The argument-rewriting loop of `clean_block`: an argument whose text root
is a declared input is kept; otherwise the first input occurring as a
substring — or, failing a truthy match, the positional input — replaces it
with a `variable` argument dict. -/
def processArgs (inputs : List JVal) : Nat → List JVal → Except String (List JVal)
  | _, [] => .ok []
  | i, arg :: rest =>
    let arg_val := argValOf arg
    let clean_name := rootOf arg_val
    if inputs.any (fun j => beqJVal j (.str clean_name)) then
      match processArgs inputs (i + 1) rest with
      | .error e => .error e
      | .ok tail => .ok (arg :: tail)
    else
      match findSubstrMatch inputs arg_val with
      | .error e => .error e
      | .ok m1 =>
        let m2 := if !pyTruthyOpt m1 && i < inputs.length then some (inputs.getD i .null) else m1
        match processArgs inputs (i + 1) rest with
        | .error e => .error e
        | .ok tail =>
          match m2 with
          | some mv =>
            if pyTruthy mv then
              .ok (.obj [("type", .str "variable"), ("name", mv)] :: tail)
            else .ok (arg :: tail)
          | none => .ok (arg :: tail)

mutual

/-- `clean_block(statements)`: non-lists pass through. -/
def clean_block (inputs subNames : List JVal) : JVal → Except String JVal
  | .arr stmts =>
    match cleanStmts inputs subNames stmts with
    | .error e => .error e
    | .ok r => .ok (.arr r)
  | other => .ok other

/-- The statement loop of `clean_block`: non-dicts are dropped; conditionals
recurse and are dropped when their cleaned body is falsy; channel chains are
dropped; calls to sub-workflow names are dropped when inputs exist; calls
get their arguments rewritten (adding a missing `type` tag); everything else
is kept. -/
def cleanStmts (inputs subNames : List JVal) : List JVal → Except String (List JVal)
  | [] => .ok []
  | .obj fs :: rest =>
    if typeIs fs "conditional" then
      match cleanCondFields inputs subNames fs with
      | .error e => .error e
      | .ok (fs2, b2) =>
        match cleanStmts inputs subNames rest with
        | .error e => .error e
        | .ok tail =>
          if pyTruthy b2 then .ok (.obj fs2 :: tail) else .ok tail
    else
      let is_chain := typeIs fs "channel_chain" || (objGet fs "start_variable").isSome
      let is_call := typeIs fs "process_call" || (objGet fs "process_name").isSome
      if is_chain then cleanStmts inputs subNames rest
      else if is_call && !inputs.isEmpty &&
          subNames.any (fun n => beqJVal n ((objGet fs "process_name").getD .null)) then
        cleanStmts inputs subNames rest
      else if is_call then
        match pyIterElems ((objGet fs "args").getD (.arr [])) with
        | .error e => .error e
        | .ok elems =>
          match processArgs inputs 0 elems with
          | .error e => .error e
          | .ok newArgs =>
            let fs2 := objSet fs "args" (.arr newArgs)
            let fs3 :=
              if (objGet fs2 "type").isSome then fs2
              else objSet fs2 "type" (.str "process_call")
            match cleanStmts inputs subNames rest with
            | .error e => .error e
            | .ok tail => .ok (.obj fs3 :: tail)
      else
        match cleanStmts inputs subNames rest with
        | .error e => .error e
        | .ok tail => .ok (.obj fs :: tail)
  | _ :: rest => cleanStmts inputs subNames rest

/-- `stmt['body'] = clean_block(stmt.get('body', []))`, fused into one walk;
also returns the new body value (read back by `if stmt['body']:`). -/
def cleanCondFields (inputs subNames : List JVal) :
    List (String × JVal) → Except String (List (String × JVal) × JVal)
  | [] => .ok ([("body", .arr [])], .arr [])
  | (k, v) :: rest =>
    if k == "body" then
      match clean_block inputs subNames v with
      | .error e => .error e
      | .ok b2 => .ok ((k, b2) :: rest, b2)
    else
      match cleanCondFields inputs subNames rest with
      | .error e => .error e
      | .ok (rest2, b2) => .ok ((k, v) :: rest2, b2)

end

/-- `NextflowPipelineAST.deduplicate_logic` (mode=`before`): no sub-workflows
or a non-dict main workflow passes through; otherwise the main body is
cleaned against the declared inputs and the sub-workflow name set. -/
def deduplicate_logic (values : JVal) : Except String JVal :=
  match values with
  | .obj vfs =>
    let main_wf := (objGet vfs "main_workflow").getD .null
    let sub_wfs := (objGet vfs "sub_workflows").getD (.arr [])
    if !pyTruthy sub_wfs then .ok values
    else
      match main_wf with
      | .obj mfs =>
        let inputs :=
          match (objGet mfs "take_channels").getD (.arr []) with
          | .arr l => l
          | _ => []
        (match pyIterElems sub_wfs with
         | .error e => .error e
         | .ok subElems =>
           let subNames := subElems.filterMap (fun s =>
             match s with
             | .obj sfs => objGet sfs "name"
             | _ => none)
           match clean_block inputs subNames ((objGet mfs "body").getD (.arr [])) with
           | .error e => .error e
           | .ok bodyv =>
             .ok (.obj (objSet vfs "main_workflow" (.obj (objSet mfs "body" bodyv)))))
      | _ => .ok values
  | _ => .error "AttributeError: values has no attribute get"

/-! ## Implicit emit-shorthand fix-up (`EmitItem.handle_implicit_shorthand`)
applied to raw emit dicts -/

/-- `handle_implicit_shorthand(values)` on a raw emit dict: a dotted export
name with a falsy internal source becomes
`(last path segment, full dotted string)`. -/
def handle_implicit_shorthand (values : JVal) : Except String JVal :=
  match values with
  | .obj fs =>
    let exportv := (objGet fs "export_name").getD (.str "")
    let internal := (objGet fs "internal_variable").getD .null
    (match pyInStr "." exportv with
     | .error e => .error e
     | .ok hasDot =>
       if hasDot && !pyTruthy internal then
         match exportv with
         | .str e =>
           let parts := pySplit "." e
           .ok (.obj (objSet (objSet fs "export_name" (.str (parts.getLastD "")))
             "internal_variable" (.str e)))
         | _ => .error "AttributeError: export has no attribute split"
       else .ok values)
  | _ => .error "AttributeError: values has no attribute get"

/-- Apply the emit shorthand to each entry of a workflow dict's
`emit_channels` list (the pass only fires where the shapes permit it). -/
def mapEmits (wf : JVal) : Except String JVal :=
  match wf with
  | .obj wfs =>
    match objGet wfs "emit_channels" with
    | some (.arr es) =>
      (match es.mapM handle_implicit_shorthand with
       | .error e => .error e
       | .ok es2 => .ok (.obj (objSet wfs "emit_channels" (.arr es2))))
    | _ => .ok wf
  | _ => .ok wf

/-- The emit-shorthand pass over the whole candidate tree: the main workflow
and every sub-workflow entry. -/
def canonEmits (values : JVal) : Except String JVal :=
  match values with
  | .obj vfs =>
    (match objGet vfs "main_workflow" with
     | some mw =>
       (match mapEmits mw with
        | .error e => .error e
        | .ok mw2 =>
          let vfs1 := objSet vfs "main_workflow" mw2
          match objGet vfs1 "sub_workflows" with
          | some (.arr subs) =>
            (match subs.mapM mapEmits with
             | .error e => .error e
             | .ok subs2 => .ok (.obj (objSet vfs1 "sub_workflows" (.arr subs2))))
          | _ => .ok (.obj vfs1))
     | none =>
       match objGet vfs "sub_workflows" with
       | some (.arr subs) =>
         (match subs.mapM mapEmits with
          | .error e => .error e
          | .ok subs2 => .ok (.obj (objSet vfs "sub_workflows" (.arr subs2))))
       | _ => .ok values)
  | _ => .ok values

/-- The lazy-call-repair pass over the candidate tree: the entrypoint body
(`EntrypointWorkflow.fix_lazy_process_calls`). -/
def canonEntrypoint (values : JVal) : Except String JVal :=
  match values with
  | .obj vfs =>
    match objGet vfs "entrypoint" with
    | some (.obj efs) =>
      (match objGet efs "body" with
       | some b =>
         (match repair_lazy_calls b with
          | .error e => .error e
          | .ok b2 => .ok (.obj (objSet vfs "entrypoint" (.obj (objSet efs "body" b2)))))
       | none => .ok values)
    | _ => .ok values
  | _ => .ok values

/-- The canonicalizer: deduplication (root `mode=before` validator), then the
per-field passes — lazy-call repair on the entrypoint body and the emit
shorthand on every emit dict. -/
def canonicalize (values : JVal) : Except String JVal :=
  match deduplicate_logic values with
  | .error e => .error e
  | .ok v1 =>
    match canonEntrypoint v1 with
    | .error e => .error e
    | .ok v2 => canonEmits v2

/-- The declared main-workflow inputs the deduplication pass extracts. -/
def extractedInputs (x : JVal) : List JVal :=
  match x with
  | .obj vfs =>
    match (objGet vfs "main_workflow").getD .null with
    | .obj mfs =>
      match (objGet mfs "take_channels").getD (.arr []) with
      | .arr l => l
      | _ => []
    | _ => []
  | _ => []

/-- Every declared input is a string whose root identifier (before the first
dot) is itself a declared input. -/
def rootClosedStrInputs (l : List JVal) : Prop :=
  ∀ j ∈ l, ∃ s : String, j = .str s ∧ JVal.str (rootOf s) ∈ l

/-- The candidate tree of the C7 counterexample: a declared input `b.a`
containing the other input `a` as a substring. -/
def cexC7 : JVal := .obj [
  ("sub_workflows", .arr [.obj [("name", .str "qc")]]),
  ("main_workflow", .obj [
    ("take_channels", .arr [.str "a", .str "b.a"]),
    ("body", .arr [.obj [
      ("type", .str "process_call"),
      ("process_name", .str "p"),
      ("args", .arr [.str "x", .str "y"])]])])]

/-- `canonicalize cexC7`: both arguments rewritten positionally to the
declared inputs. -/
def cexC7once : JVal := .obj [
  ("sub_workflows", .arr [.obj [("name", .str "qc")]]),
  ("main_workflow", .obj [
    ("take_channels", .arr [.str "a", .str "b.a"]),
    ("body", .arr [.obj [
      ("type", .str "process_call"),
      ("process_name", .str "p"),
      ("args", .arr [
        .obj [("type", .str "variable"), ("name", .str "a")],
        .obj [("type", .str "variable"), ("name", .str "b.a")]])]])])]

/-- `canonicalize cexC7once`: the second argument changes again — its text
`b.a` has root `b`, not an input, and the substring scan now matches `a`. -/
def cexC7twice : JVal := .obj [
  ("sub_workflows", .arr [.obj [("name", .str "qc")]]),
  ("main_workflow", .obj [
    ("take_channels", .arr [.str "a", .str "b.a"]),
    ("body", .arr [.obj [
      ("type", .str "process_call"),
      ("process_name", .str "p"),
      ("args", .arr [
        .obj [("type", .str "variable"), ("name", .str "a")],
        .obj [("type", .str "variable"), ("name", .str "a")]])]])])]

/-- A candidate tree with root-closed string inputs (the single input
`reads` is its own root): the canonicalizer is idempotent on it. -/
def wit7 : JVal := .obj [
  ("sub_workflows", .arr [.obj [("name", .str "qc")]]),
  ("main_workflow", .obj [
    ("take_channels", .arr [.str "reads"]),
    ("body", .arr [.obj [
      ("type", .str "process_call"),
      ("process_name", .str "p"),
      ("args", .arr [.str "x"])]])])]

/-- `canonicalize wit7`: the positional argument is rewritten to the
declared input and nothing changes on a second pass. -/
def wit7once : JVal := .obj [
  ("sub_workflows", .arr [.obj [("name", .str "qc")]]),
  ("main_workflow", .obj [
    ("take_channels", .arr [.str "reads"]),
    ("body", .arr [.obj [
      ("type", .str "process_call"),
      ("process_name", .str "p"),
      ("args", .arr [.obj [("type", .str "variable"), ("name", .str "reads")]])]])])]

/-! # Theorems -/

/-- **C5 counterexample.**  The claim states that closure-only operators
(`multiMap`, `branch`, `map`) require a *non-empty* closure.  In the code
`closure_lines` is merely required to be present (`Field(...)` without
`min_length`), so a `map` operator with an *empty* closure list and no
arguments is accepted by construction. -/
theorem c5_logic_empty_closure_accepted :
    mkLogicOperator "map" (some []) none = .ok ⟨"map", [], []⟩ := rfl

/-- **C5 (amended).**  Operator construction acceptance, per class:
closure-only operators require the closure field to be *present* (it may be
empty) and forbid arguments; parametric operators require non-empty arguments
and forbid a closure; flexible operators accept anything except `filter` with
both lists empty; structural operators forbid a closure.  In particular
`filter` with empty args and closure fails construction. -/
theorem c5_operator_class_rules :
    (∀ op cls args, exceptOk (mkLogicOperator op cls args) = true ↔
      (op ∈ logicOperators ∧ cls ≠ none ∧ args.getD [] = [])) ∧
    (∀ op args cls, exceptOk (mkParametricOperator op args cls) = true ↔
      (op ∈ parametricOperators ∧ args.getD [] ≠ [] ∧ cls.getD [] = [])) ∧
    (∀ op args cls, exceptOk (mkFlexibleOperator op args cls) = true ↔
      (op ∈ flexibleOperators ∧
        ¬(op = "filter" ∧ args.getD [] = [] ∧ cls.getD [] = []))) ∧
    (∀ op args cls, exceptOk (mkStructuralOperator op args cls) = true ↔
      (op ∈ structuralOperators ∧ cls.getD [] = [])) ∧
    exceptOk (mkFlexibleOperator "filter" none none) = false := by
  refine ⟨?_, ?_, ?_, ?_, rfl⟩
  · intro op cls args
    cases cls with
    | none =>
      by_cases hop : op ∈ logicOperators <;> simp [mkLogicOperator, exceptOk, hop]
    | some c =>
      by_cases hop : op ∈ logicOperators <;> by_cases ha : args.getD [] = [] <;>
        simp [mkLogicOperator, exceptOk, hop, ha, Nat.le_zero, List.length_eq_zero]
  · intro op args cls
    cases args with
    | none =>
      by_cases hop : op ∈ parametricOperators <;> simp [mkParametricOperator, exceptOk, hop]
    | some a =>
      by_cases hop : op ∈ parametricOperators <;> by_cases ha : a = [] <;>
        by_cases hc : cls.getD [] = [] <;>
          simp [mkParametricOperator, exceptOk, hop, ha, hc, Nat.lt_one_iff, Nat.le_zero,
            List.length_eq_zero]
  · intro op args cls
    by_cases hop : op ∈ flexibleOperators
    · by_cases hf : op = "filter"
      · subst hf
        have hm : ("filter" : String) ∈ flexibleOperators := by decide
        by_cases ha : args.getD [] = [] <;> by_cases hc : cls.getD [] = [] <;>
          simp [mkFlexibleOperator, exceptOk, hm, ha, hc, List.isEmpty_iff]
      · by_cases ha : args.getD [] = [] <;> by_cases hc : cls.getD [] = [] <;>
          simp [mkFlexibleOperator, exceptOk, hop, hf, ha, hc, List.isEmpty_iff]
    · simp [mkFlexibleOperator, exceptOk, hop]
  · intro op args cls
    by_cases hop : op ∈ structuralOperators <;> by_cases hc : cls.getD [] = [] <;>
      simp [mkStructuralOperator, exceptOk, hop, hc, Nat.le_zero, List.length_eq_zero]

/-- **C9.**  `ImportItem` construction never inspects `module_path`: its
acceptance coincides with alias validation of `functions`, and a module path
starting with neither `../steps/` nor `../functions/` is accepted, contrary
to the claim that such paths are rejected at schema time. -/
theorem c9_module_path_unchecked :
    (∀ mp fns, exceptOk (mkImportItem (some mp) (some fns)) = exceptOk (validate_aliases fns)) ∧
    mkImportItem (some "modules/local/align.nf") (some ["ALIGN"]) =
      .ok ⟨"modules/local/align.nf", ["ALIGN"]⟩ ∧
    pyStartswith "modules/local/align.nf" "../steps/" = false ∧
    pyStartswith "modules/local/align.nf" "../functions/" = false := by
  refine ⟨?_, rfl, by decide, by decide⟩
  intro mp fns
  simp only [mkImportItem]
  cases validate_aliases fns <;> rfl

/-- **C10 counterexample.**  `x=5` has balanced parentheses and contains a
bare single `=` (not part of `==`, `!=`, `<=`, `>=`), yet
`validate_groovy_condition` accepts it: both heuristic regexes require
whitespace adjacent to the `=`, so the claim that `x=5` "must be rejected
just as `x = 5` is" is false on the code. -/
theorem c10_x_eq_5_accepted :
    validate_groovy_condition "x=5" = .ok "x=5" ∧
    bareSingleEq none "x=5".data = true ∧
    countChar "x=5" '(' = countChar "x=5" ')' := ⟨rfl, rfl, rfl⟩

/-- **C10 (amended).**  Construction does fail on unbalanced parentheses, and
the single-`=` guard fires only when the `=` borders whitespace: `x = 5` is
rejected while `x=5` is accepted. -/
theorem c10_condition_checks :
    (∀ v, countChar (pyStrip v) '(' ≠ countChar (pyStrip v) ')' →
      validate_groovy_condition v = .error "SYNTAX ERROR: Unbalanced parentheses in condition") ∧
    validate_groovy_condition "x = 5" =
      .error "POSSIBLE SYNTAX ERROR: condition uses single equals sign" ∧
    validate_groovy_condition "x=5" = .ok "x=5" := by
  refine ⟨?_, rfl, rfl⟩
  intro v h
  have hne : pyStrip v ≠ "" := by
    intro he
    rw [he] at h
    exact h rfl
  simp [validate_groovy_condition, hne, h]

/-- Witness for `c10_condition_checks`: the unbalanced condition `(x`. -/
theorem c10_condition_checks_witness :
    validate_groovy_condition "(x" =
      .error "SYNTAX ERROR: Unbalanced parentheses in condition" :=
  c10_condition_checks.1 "(x" (by decide)

/-- Helper: the emit-checking loop succeeds exactly when every emit target
root is among the harvested definitions. -/
theorem checkEmits_ok_iff (d : List String) (es : List EmitItem) :
    exceptOk (checkEmits d es) = true ↔
      ∀ e ∈ es, rootOf (pyOrStr e.internal_variable e.export_name) ∈ d := by
  induction es with
  | nil => simp [checkEmits, exceptOk]
  | cons e rest ih =>
    by_cases h : rootOf (pyOrStr e.internal_variable e.export_name) ∈ d
    · have hstep : checkEmits d (e :: rest) = checkEmits d rest := by
        simp [checkEmits, h]
      rw [hstep, ih]
      simp [h]
    · have hstep : checkEmits d (e :: rest) = .error "SCOPE ERROR: emit target undefined" := by
        simp [checkEmits, h]
      rw [hstep]
      constructor
      · intro hfalse
        simp [exceptOk] at hfalse
      · intro hall
        exact absurd (hall e (List.mem_cons_self e rest)) h

/-- **C3 counterexample.**  A workflow whose single call references the
never-bound variable `ghost` passes the whole `NextflowWorkflow` validator
chain (the call itself is constructible), although the spec-side scope rule
rejects that reference: validation does not check statement references. -/
theorem c3_ghost_reference_accepted :
    mkProcessCall "p" [.varArg "ghost"] none none =
      .ok ⟨"p", [.varArg "ghost"], none, none⟩ ∧
    NextflowWorkflow.runValidators c3Workflow = .ok c3Workflow ∧
    specScopeOk [] c3Workflow.body = false :=
  ⟨rfl, rfl, by simp [specScopeOk, specStatementRefs, specRootId, c3Workflow]⟩

/-- **C3 (amended).**  `validate_scope` checks only the emit list: it accepts
a workflow iff every emit's effective source (`internal_variable` if truthy,
else `export_name`) has its root identifier (before the first dot) among the
declared inputs or the names bound *anywhere* in the top-level body
(assignment targets, truthy call result-bindings, called names, truthy chain
result-bindings).  References inside statements are never checked, and
globals/imports/sibling names are not consulted. -/
theorem c3_scope_checks_only_emits :
    ∀ w : NextflowWorkflow, exceptOk w.validate_scope = true ↔
      ∀ e ∈ w.emit_channels,
        rootOf (pyOrStr e.internal_variable e.export_name) ∈ scopeDefined w := by
  intro w
  rw [← checkEmits_ok_iff]
  unfold NextflowWorkflow.validate_scope
  cases h : checkEmits (scopeDefined w) w.emit_channels <;> simp [exceptOk, h]

/-- Helper: on a body whose process calls all satisfy the construction
invariant (truthy accessor implies truthy binding), the auto-fix loop changes
nothing. -/
theorem autoFixEmitsGo_id (l : List Statement) (emits : List EmitItem)
    (h : ∀ pc, Statement.processCall pc ∈ l →
      pyTruthyStr pc.output_attribute = true → pyTruthyStr pc.assign_to = true) :
    autoFixEmitsGo l emits = .ok (l, emits) := by
  induction l with
  | nil => rfl
  | cons stmt rest ih =>
    have hrest : ∀ pc, Statement.processCall pc ∈ rest →
        pyTruthyStr pc.output_attribute = true → pyTruthyStr pc.assign_to = true :=
      fun pc hm => h pc (List.mem_cons_of_mem _ hm)
    cases stmt with
    | processCall pc =>
      have hpc := h pc (List.mem_cons_self _ _)
      have hcond : (pyTruthyStr pc.output_attribute && !pyTruthyStr pc.assign_to) = false := by
        cases hoa : pyTruthyStr pc.output_attribute
        · simp
        · simp [hpc hoa]
      simp [autoFixEmitsGo, hcond, ih hrest]
    | channelChain cc => simp [autoFixEmitsGo, ih hrest]
    | assignment a => simp [autoFixEmitsGo, ih hrest]
    | conditional c b => simp [autoFixEmitsGo, ih hrest]

/-- **C6 counterexample.**  A constructible call carrying both a result
binding and the accessor `bam` survives the full workflow validator chain
unchanged: the validated workflow retains a `ProcessCall` with a non-null
output accessor and has no matching emit, contradicting the claim. -/
theorem c6_accessor_retained :
    mkProcessCall "p" [] (some "x") (some "bam") =
      .ok ⟨"p", [], some "x", some "bam"⟩ ∧
    NextflowWorkflow.runValidators c6Workflow = .ok c6Workflow ∧
    Statement.processCall ⟨"p", [], some "x", some "bam"⟩ ∈ c6Workflow.body ∧
    (⟨"p", [], some "x", some "bam"⟩ : ProcessCall).output_attribute = some "bam" ∧
    c6Workflow.emit_channels = [] :=
  ⟨rfl, rfl, by simp [c6Workflow], rfl, rfl⟩

/-- **C6 (amended).**  The promotion branch of `auto_fix_emits` requires a
truthy accessor together with a falsy result binding — a combination that
`ProcessCall` construction rejects — so on any workflow whose calls satisfy
the construction invariant, `auto_fix_emits` is the identity: it never
synthesizes an emit nor clears an accessor. -/
theorem c6_promotion_branch_dead :
    (∀ n args asg oa pc, mkProcessCall n args asg oa = .ok pc →
      pyTruthyStr pc.output_attribute = true → pyTruthyStr pc.assign_to = true) ∧
    (∀ w : NextflowWorkflow,
      (∀ pc, Statement.processCall pc ∈ w.body →
        pyTruthyStr pc.output_attribute = true → pyTruthyStr pc.assign_to = true) →
      w.auto_fix_emits = .ok w) := by
  constructor
  · intro n args asg oa pc h hoa
    unfold mkProcessCall at h
    split_ifs at h with h1 h2 h3
    simp at h
    subst h
    have hoa2 : pyTruthyStr oa = true := hoa
    show pyTruthyStr asg = true
    cases hasg : pyTruthyStr asg with
    | false => simp [hoa2, hasg] at h2
    | true => rfl
  · intro w hw
    unfold NextflowWorkflow.auto_fix_emits
    rw [autoFixEmitsGo_id w.body w.emit_channels hw]
    rfl

/-- Witness for `c6_promotion_branch_dead`: a one-call workflow with both
binding and accessor is left unchanged by `auto_fix_emits`. -/
theorem c6_promotion_branch_dead_witness :
    NextflowWorkflow.auto_fix_emits
        ⟨"m", [], [.processCall ⟨"q", [], some "r", some "bam"⟩], []⟩ =
      .ok ⟨"m", [], [.processCall ⟨"q", [], some "r", some "bam"⟩], []⟩ :=
  c6_promotion_branch_dead.2 _ (by
    intro pc hm hoa
    simp at hm
    subst hm
    decide)

/-- Helper: the root-level `auto_fix_emits` always raises, because `body` is
not an attribute of the root model. -/
theorem root_auto_fix_emits_raises (ast : NextflowPipelineAST) :
    ast.auto_fix_emits =
      .error "AttributeError: NextflowPipelineAST object has no attribute body" := rfl

/-- **C1.**  The root after-validator chain fails on *every* input: even when
`validate_prepare_inputs_location` and `ensure_entrypoint_connectivity`
succeed, the root-level `auto_fix_emits` accesses the non-existent attribute
`body` (and `validate_and_prune_scope` would access `take_channels`), so no
candidate tree can ever complete root construction/validation. -/
theorem c1_root_validation_always_fails :
    ∀ ast : NextflowPipelineAST, exceptOk ast.runAfterValidators = false := by
  intro ast
  unfold NextflowPipelineAST.runAfterValidators
  cases h1 : ast.validate_prepare_inputs_location with
  | error e => rfl
  | ok a1 =>
    show exceptOk
      (match a1.ensure_entrypoint_connectivity with
        | .error e => .error e
        | .ok a2 =>
          match a2.auto_fix_emits with
          | .error e => .error e
          | .ok a3 => a3.validate_and_prune_scope) = false
    cases h2 : a1.ensure_entrypoint_connectivity with
    | error e => rfl
    | ok a2 =>
      show exceptOk
        (match a2.auto_fix_emits with
          | .error e => .error e
          | .ok a3 => a3.validate_and_prune_scope) = false
      rw [root_auto_fix_emits_raises a2]
      rfl

/-- **C2.**  `render_nextflow_code` fails on every input with an
`UndefinedError`: the renderer binds the template variables to the model
fields (`processes`, …), but the template iterates `inline_processes`, which
is never bound, and iterating a Jinja2 `Undefined` raises.  The claim that
rendering succeeds and emits one inline process block per entry is false on
the code; the spec describes the evident intent. -/
theorem c2_render_always_fails :
    ∀ ast : NextflowPipelineAST,
      render_nextflow_code ast = .error "UndefinedError: inline_processes is undefined" := by
  intro ast
  rfl

/-- **C4.**  The repair-loop routing and its two claimed consequences:
`should_repair` routes exactly as claimed (counting the already-incremented
retry count), a run failing twice then succeeding terminates `Succeeded`
with recorded retries = 2, and a run opening with three consecutive failures
terminates `Failed` after the third attempt no matter what outcomes follow —
no fourth generation attempt happens. -/
theorem c4_repair_loop :
    (∀ s : LoopState,
      (should_repair s = .success ↔ pyTruthyStr s.validation_error = false) ∧
      (should_repair s = .repair ↔
        pyTruthyStr s.validation_error = true ∧ s.retries < MAX_RETRIES) ∧
      (should_repair s = .fail ↔
        pyTruthyStr s.validation_error = true ∧ MAX_RETRIES ≤ s.retries)) ∧
    (∀ e1 e2, pyTruthyStr (some e1) = true → pyTruthyStr (some e2) = true →
      runLoop [some e1, some e2, none] initialLoopState = some (.succeeded 2)) ∧
    (∀ e1 e2 e3 rest,
      pyTruthyStr (some e1) = true → pyTruthyStr (some e2) = true →
      pyTruthyStr (some e3) = true →
      runLoop (some e1 :: some e2 :: some e3 :: rest) initialLoopState =
        some (.failed 3)) := by
  refine ⟨?_, ?_, ?_⟩
  · intro s
    by_cases he : pyTruthyStr s.validation_error = true
    · by_cases hr : s.retries ≥ MAX_RETRIES <;>
        (simp [should_repair, he, hr]; try omega)
    · simp at he
      simp [should_repair, he]
  · intro e1 e2 h1 h2
    simp [pyTruthyStr] at h1 h2
    simp [runLoop, architect_attempt, should_repair, initialLoopState, MAX_RETRIES,
      pyTruthyStr, h1, h2]
  · intro e1 e2 e3 rest h1 h2 h3
    simp [pyTruthyStr] at h1 h2 h3
    simp [runLoop, architect_attempt, should_repair, initialLoopState, MAX_RETRIES,
      pyTruthyStr, h1, h2, h3]

/-- Witness for `c4_repair_loop`: a run with two concrete failures and then a
success records 2 retries; one with three straight failures is `Failed`
regardless of further provided outcomes. -/
theorem c4_repair_loop_witness :
    runLoop [some "boom", some "boom", none] initialLoopState =
      some (.succeeded 2) ∧
    runLoop [some "a", some "b", some "c", none] initialLoopState =
      some (.failed 3) :=
  ⟨c4_repair_loop.2.1 "boom" "boom" (by decide) (by decide),
   c4_repair_loop.2.2 "a" "b" "c" [none] (by decide) (by decide) (by decide)⟩

/-- **C8 counterexample.**  `make_id` is not injective: the distinct semantic
names `a.b` and `a_b` sanitize to the same string, neither triggers the hash
fallback, and both yield the node id `a_b`. -/
theorem c8_make_id_collision :
    make_id "a.b" = "a_b" ∧ make_id "a_b" = "a_b" ∧ "a.b" ≠ "a_b" :=
  ⟨rfl, rfl, by decide⟩

/-- **C8 (amended).**  `make_id` sanitizes the name (punctuation and
whitespace to underscores) and substitutes `node_` plus a 6-hex-digit MD5
prefix when the sanitized result is longer than 30 or starts with a digit or
underscore; it is injective only on names whose *sanitized* forms differ and
which avoid the fallback — names that sanitize identically collide. -/
theorem c8_make_id_partial_injectivity :
    ∀ n1 n2 : String, n1 ≠ "" → n2 ≠ "" →
      hashFallback (sanitizeId n1) = false → hashFallback (sanitizeId n2) = false →
      sanitizeId n1 ≠ sanitizeId n2 → make_id n1 ≠ make_id n2 := by
  intro n1 n2 h1 h2 hf1 hf2 hs
  unfold make_id
  simp [h1, h2, hf1, hf2]
  exact hs

/-- Witness for `c8_make_id_partial_injectivity`: `abc` and `abd`. -/
theorem c8_make_id_partial_injectivity_witness :
    make_id "abc" ≠ make_id "abd" :=
  c8_make_id_partial_injectivity "abc" "abd" (by decide) (by decide) (by decide)
    (by decide) (by decide)

/-- Helper: unfolding `objGet` over a cons cell. -/
theorem objGet_cons (k2 : String) (v2 : JVal) (rest : List (String × JVal)) (k : String) :
    objGet ((k2, v2) :: rest) k = if (k2 == k) = true then some v2 else objGet rest k := by
  by_cases h : (k2 == k) = true <;> simp [objGet, List.find?, h]

/-- Helper: reading back the key just set. -/
theorem objGet_objSet_same : ∀ (fs : List (String × JVal)) (k : String) (v : JVal),
    objGet (objSet fs k v) k = some v
  | [], k, v => by simp [objSet, objGet_cons]
  | (k2, v2) :: rest, k, v => by
    unfold objSet
    by_cases hk : (k2 == k) = true
    · rw [if_pos hk]
      simp [objGet_cons]
    · rw [if_neg hk, objGet_cons, if_neg hk]
      exact objGet_objSet_same rest k v

/-- Helper: setting one key leaves the others readable unchanged. -/
theorem objGet_objSet_other : ∀ (fs : List (String × JVal)) (k k2 : String) (v : JVal),
    k ≠ k2 → objGet (objSet fs k v) k2 = objGet fs k2
  | [], k, k2, v, hne => by
    have : (k == k2) = false := by simpa using hne
    simp [objSet, objGet_cons, this]
  | (k3, v3) :: rest, k, k2, v, hne => by
    unfold objSet
    by_cases hk : (k3 == k) = true
    · rw [if_pos hk]
      have hk3 : k3 = k := by simpa using hk
      subst hk3
      have h1 : (k3 == k2) = false := by simpa using hne
      rw [objGet_cons, if_neg (by simp [h1]), objGet_cons, if_neg (by simp [h1])]
    · rw [if_neg hk, objGet_cons, objGet_cons]
      by_cases hk2 : (k3 == k2) = true
      · rw [if_pos hk2, if_pos hk2]
      · rw [if_neg hk2, if_neg hk2]
        exact objGet_objSet_other rest k k2 v hne

/-- Helper: unfolding `objSet` over nil. -/
theorem objSet_nil (k : String) (v : JVal) : objSet [] k v = [(k, v)] := rfl

/-- Helper: unfolding `objSet` over a cons cell. -/
theorem objSet_cons (k2 : String) (v2 : JVal) (rest : List (String × JVal))
    (k : String) (v : JVal) :
    objSet ((k2, v2) :: rest) k v =
      if (k2 == k) = true then (k, v) :: rest else (k2, v2) :: objSet rest k v := rfl

/-- Helper: overwriting the same key twice collapses. -/
theorem objSet_objSet_same : ∀ (fs : List (String × JVal)) (k : String) (v w : JVal),
    objSet (objSet fs k v) k w = objSet fs k w
  | [], k, v, w => by simp [objSet_nil, objSet_cons]
  | (k2, v2) :: rest, k, v, w => by
    by_cases hk : (k2 == k) = true
    · simp [objSet_cons, hk]
    · simp [objSet_cons, hk, objSet_objSet_same rest k v w]

/-- Helper: writing back the value already bound is the identity. -/
theorem objSet_self : ∀ (fs : List (String × JVal)) (k : String) (v : JVal),
    objGet fs k = some v → objSet fs k v = fs
  | [], k, v, h => by simp [objGet, List.find?] at h
  | (k2, v2) :: rest, k, v, h => by
    rw [objGet_cons] at h
    unfold objSet
    by_cases hk : (k2 == k) = true
    · rw [if_pos hk] at h
      rw [if_pos hk]
      have hkk : k2 = k := by simpa using hk
      cases h
      rw [hkk]
    · rw [if_neg hk] at h
      rw [if_neg hk, objSet_self rest k v h]

/-- Helper: writes to distinct keys commute when the first key is already
bound (in-place replacement). -/
theorem objSet_comm_present : ∀ (fs : List (String × JVal)) (k1 k2 : String)
    (v1 v2 w1 : JVal), objGet fs k1 = some w1 → k1 ≠ k2 →
    objSet (objSet fs k1 v1) k2 v2 = objSet (objSet fs k2 v2) k1 v1
  | [], k1, k2, v1, v2, w1, hp, hne => by simp [objGet, List.find?] at hp
  | (k3, v3) :: rest, k1, k2, v1, v2, w1, hp, hne => by
    have h12 : (k1 == k2) = false := by simpa using hne
    have h21 : (k2 == k1) = false := by simpa using (Ne.symm hne)
    rw [objGet_cons] at hp
    by_cases ha : (k3 == k1) = true
    · have hk3 : k3 = k1 := by simpa using ha
      subst hk3
      simp [objSet_cons, ha, h12, h21]
    · rw [if_neg ha] at hp
      by_cases hb : (k3 == k2) = true
      · have hk3 : k3 = k2 := by simpa using hb
        subst hk3
        simp [objSet_cons, ha, hb, h21]
      · simp [objSet_cons, ha, hb,
          objSet_comm_present rest k1 k2 v1 v2 w1 hp hne]

/-- Helper: a successful substring scan returns a string member of the
input list. -/
theorem findSubstrMatch_mem : ∀ (inputs : List JVal) (hay : String) (x : JVal),
    findSubstrMatch inputs hay = .ok (some x) → x ∈ inputs ∧ ∃ s, x = JVal.str s
  | [], hay, x, h => by simp [findSubstrMatch] at h
  | .str s :: rest, hay, x, h => by
    unfold findSubstrMatch at h
    by_cases hs : pySubstr s hay = true
    · rw [if_pos hs] at h
      cases h
      exact ⟨List.mem_cons_self _ _, s, rfl⟩
    · rw [if_neg hs] at h
      obtain ⟨hmem, hstr⟩ := findSubstrMatch_mem rest hay x h
      exact ⟨List.mem_cons_of_mem _ hmem, hstr⟩
  | .null :: rest, hay, x, h => by simp [findSubstrMatch] at h
  | .bool b :: rest, hay, x, h => by simp [findSubstrMatch] at h
  | .int n :: rest, hay, x, h => by simp [findSubstrMatch] at h
  | .arr xs :: rest, hay, x, h => by simp [findSubstrMatch] at h
  | .obj fs :: rest, hay, x, h => by simp [findSubstrMatch] at h

/-- Helper: `getD` within bounds yields a member. -/
theorem getD_mem : ∀ (l : List JVal) (i : Nat) (d : JVal), i < l.length → l.getD i d ∈ l
  | [], i, d, h => by simp at h
  | x :: rest, 0, d, _ => by simp
  | x :: rest, i + 1, d, h => by
    have := getD_mem rest i d (by simpa using h)
    simp [List.getD_cons_succ]
    right
    simpa using this

/-- Helper: membership of a string value makes the `beqJVal` scan succeed. -/
theorem any_beq_of_mem (inputs : List JVal) (s : String)
    (h : JVal.str s ∈ inputs) :
    inputs.any (fun j => beqJVal j (.str s)) = true := by
  rw [List.any_eq_true]
  exact ⟨.str s, h, by simp [beqJVal]⟩

/-- Helper: the text of a replacement `variable` argument dict is its
(non-empty) name string. -/
theorem argValOf_var (s : String) (hs : s ≠ "") :
    argValOf (.obj [("type", .str "variable"), ("name", .str s)]) = s := by
  unfold argValOf
  dsimp only []
  have h1 : objGet [("type", JVal.str "variable"), ("name", JVal.str s)] "name"
      = some (.str s) := by
    simp [objGet_cons]
  rw [h1]
  simp [pyOr, pyTruthy, pyStr, hs]

/-- Helper: a replacement `variable` argument whose root is a declared input
is kept by a second `processArgs` pass. -/
theorem processArgs_var_cons (inputs : List JVal) (i : Nat) (s : String)
    (hs : s ≠ "") (hroot : JVal.str (rootOf s) ∈ inputs) (tail : List JVal)
    (htail : processArgs inputs (i + 1) tail = .ok tail) :
    processArgs inputs i (.obj [("type", .str "variable"), ("name", .str s)] :: tail) =
      .ok (.obj [("type", .str "variable"), ("name", .str s)] :: tail) := by
  unfold processArgs
  rw [argValOf_var s hs, if_pos (any_beq_of_mem inputs (rootOf s) hroot), htail]

/-- Helper (C7): the argument-rewriting loop is idempotent when every
declared input is a string whose root is itself a declared input. -/
theorem processArgs_idem (inputs : List JVal) (hH : rootClosedStrInputs inputs) :
    ∀ (i : Nat) (args out : List JVal),
    processArgs inputs i args = .ok out → processArgs inputs i out = .ok out
  | i, [], out, h => by cases h; rfl
  | i, arg :: rest, out, h => by
    unfold processArgs at h
    by_cases hmem : (inputs.any fun j => beqJVal j (.str (rootOf (argValOf arg)))) = true
    · rw [if_pos hmem] at h
      cases ht : processArgs inputs (i + 1) rest with
      | error e => rw [ht] at h; exact absurd h (by simp)
      | ok tail =>
        rw [ht] at h
        cases h
        have htail := processArgs_idem inputs hH (i + 1) rest tail ht
        unfold processArgs
        rw [if_pos hmem, htail]
    · rw [if_neg hmem] at h
      cases hm1 : findSubstrMatch inputs (argValOf arg) with
      | error e => rw [hm1] at h; exact absurd h (by simp)
      | ok m1 =>
        rw [hm1] at h
        dsimp only [] at h
        cases ht : processArgs inputs (i + 1) rest with
        | error e => rw [ht] at h; exact absurd h (by simp)
        | ok tail =>
          rw [ht] at h
          have htail := processArgs_idem inputs hH (i + 1) rest tail ht
          by_cases hcond : (!pyTruthyOpt m1 && decide (i < inputs.length)) = true
          · rw [if_pos hcond] at h
            dsimp only [] at h
            by_cases htr : pyTruthy (inputs.getD i .null) = true
            · rw [if_pos htr] at h
              cases h
              have hlen : i < inputs.length := by
                have := (Bool.and_eq_true _ _).mp hcond
                exact of_decide_eq_true this.2
              obtain ⟨s, hsval, hroot⟩ := hH _ (getD_mem inputs i .null hlen)
              rw [hsval] at htr
              have hs : s ≠ "" := by simpa [pyTruthy] using htr
              rw [hsval]
              exact processArgs_var_cons inputs i s hs hroot tail htail
            · rw [if_neg htr] at h
              cases h
              unfold processArgs
              rw [if_neg hmem, hm1]
              dsimp only []
              rw [htail]
              dsimp only []
              rw [if_pos hcond]
              dsimp only []
              rw [if_neg htr]
          · rw [if_neg hcond] at h
            cases hm1v : m1 with
            | none =>
              rw [hm1v] at h
              dsimp only [] at h
              cases h
              unfold processArgs
              rw [if_neg hmem, hm1]
              dsimp only []
              rw [htail]
              dsimp only []
              rw [hm1v] at hcond
              rw [hm1v, if_neg hcond]
            | some x =>
              rw [hm1v] at h
              dsimp only [] at h
              by_cases htr : pyTruthy x = true
              · rw [if_pos htr] at h
                cases h
                rw [hm1v] at hm1
                obtain ⟨hxmem, s, hxs⟩ := findSubstrMatch_mem inputs (argValOf arg) x hm1
                obtain ⟨s2, hs2val, hroot⟩ := hH _ hxmem
                rw [hxs] at hs2val
                cases hs2val
                rw [hxs] at htr
                have hs : s ≠ "" := by simpa [pyTruthy] using htr
                rw [hxs]
                exact processArgs_var_cons inputs i s hs hroot tail htail
              · rw [if_neg htr] at h
                cases h
                unfold processArgs
                rw [if_neg hmem, hm1]
                dsimp only []
                rw [htail]
                dsimp only []
                rw [hm1v] at hcond
                rw [hm1v, if_neg hcond]
                dsimp only []
                rw [if_neg htr]

/-- Helper: `repairFields` leaves the `type` binding untouched. -/
theorem repairFields_objGet_type (fs fs2 : List (String × JVal))
    (h : repairFields fs = .ok fs2) : objGet fs2 "type" = objGet fs "type" := by
  induction fs generalizing fs2 with
  | nil =>
    unfold repairFields at h
    cases h
    rfl
  | cons p rest ih =>
    obtain ⟨k, v⟩ := p
    unfold repairFields at h
    by_cases hk : (k == "body") = true
    · rw [if_pos hk] at h
      cases hv : repair_lazy_calls v with
      | error e => rw [hv] at h; exact absurd h (by simp)
      | ok v2 =>
        rw [hv] at h
        cases h
        have hkb : k = "body" := by simpa using hk
        subst hkb
        simp [objGet, List.find?]
    · rw [if_neg hk] at h
      cases hr : repairFields rest with
      | error e => rw [hr] at h; exact absurd h (by simp)
      | ok rest2 =>
        rw [hr] at h
        cases h
        by_cases hkt : (k == "type") = true
        · simp [objGet, List.find?, hkt]
        · simp only [objGet, List.find?, hkt]
          exact ih rest2 hr

/-- Helper: a lazy-call conversion output (a `process_call` dict) passes
through `repairStmt` unchanged. -/
theorem repairStmt_lazyCallStmt (pn ra : String) (sfx : Option String) (av : JVal) :
    repairStmt (lazyCallStmt pn ra sfx av) = .ok (lazyCallStmt pn ra sfx av) := by
  unfold lazyCallStmt repairStmt
  simp [typeIs, objGet, List.find?,
    (by decide : (("process_call" : String) == "conditional") = false),
    (by decide : (("process_call" : String) == "assignment") = false)]

mutual

/-- Helper (C7): `repair_lazy_calls` is idempotent. -/
theorem repair_lazy_calls_idem : ∀ v y, repair_lazy_calls v = .ok y →
    repair_lazy_calls y = .ok y
  | .arr stmts, y, h => by
    unfold repair_lazy_calls at h
    cases hl : repairStmtList stmts with
    | error e => rw [hl] at h; exact absurd h (by simp)
    | ok r =>
      rw [hl] at h
      cases h
      unfold repair_lazy_calls
      rw [repairStmtList_idem stmts r hl]
  | .null, y, h => by cases h; rfl
  | .bool b, y, h => by cases h; rfl
  | .int n, y, h => by cases h; rfl
  | .str s, y, h => by cases h; rfl
  | .obj fs, y, h => by cases h; rfl

/-- Helper (C7): the repair statement loop is idempotent. -/
theorem repairStmtList_idem : ∀ l y, repairStmtList l = .ok y →
    repairStmtList y = .ok y
  | [], y, h => by cases h; rfl
  | stmt :: rest, y, h => by
    unfold repairStmtList at h
    cases h1 : repairStmt stmt with
    | error e => rw [h1] at h; exact absurd h (by simp)
    | ok s2 =>
      rw [h1] at h
      cases h2 : repairStmtList rest with
      | error e => rw [h2] at h; exact absurd h (by simp)
      | ok r2 =>
        rw [h2] at h
        cases h
        unfold repairStmtList
        rw [repairStmt_idem stmt s2 h1, repairStmtList_idem rest r2 h2]

/-- Helper (C7): one repaired statement is a fixpoint of `repairStmt`. -/
theorem repairStmt_idem : ∀ stmt y, repairStmt stmt = .ok y → repairStmt y = .ok y
  | .obj fs, y, h => by
    have h0 := h
    unfold repairStmt at h
    by_cases hc : typeIs fs "conditional" = true
    · rw [if_pos hc] at h
      cases hf : repairFields fs with
      | error e => rw [hf] at h; exact absurd h (by simp)
      | ok fs2 =>
        rw [hf] at h
        cases h
        have ht : typeIs fs2 "conditional" = typeIs fs "conditional" := by
          unfold typeIs
          rw [repairFields_objGet_type fs fs2 hf]
        unfold repairStmt
        rw [if_pos (ht.trans hc), repairFields_idem fs fs2 hf]
    · rw [if_neg hc] at h
      by_cases ha : typeIs fs "assignment" = true
      · rw [if_pos ha] at h
        cases hv : (objGet fs "value").getD (.str "") with
        | str valRaw =>
          rw [hv] at h
          dsimp only [] at h
          cases hm : lazyCallMatch (pyStrip valRaw) with
          | none =>
            rw [hm] at h
            cases h
            exact h0
          | some t =>
            obtain ⟨pn, ra, sfx⟩ := t
            rw [hm] at h
            dsimp only [] at h
            by_cases hmk : hasToolMarker (pyStrip valRaw) = true
            · rw [if_pos hmk] at h
              cases h
              exact repairStmt_lazyCallStmt pn ra sfx ((objGet fs "variable").getD .null)
            · rw [if_neg hmk] at h
              cases h
              exact h0
        | null => rw [hv] at h; exact absurd h (by simp)
        | bool b => rw [hv] at h; exact absurd h (by simp)
        | int n => rw [hv] at h; exact absurd h (by simp)
        | arr xs => rw [hv] at h; exact absurd h (by simp)
        | obj fs3 => rw [hv] at h; exact absurd h (by simp)
      · rw [if_neg ha] at h
        cases h
        exact h0
  | .null, y, h => by cases h; rfl
  | .bool b, y, h => by cases h; rfl
  | .int n, y, h => by cases h; rfl
  | .str s, y, h => by cases h; rfl
  | .arr xs, y, h => by cases h; rfl

/-- Helper (C7): the fused body-repair walk is idempotent. -/
theorem repairFields_idem : ∀ fs fs2, repairFields fs = .ok fs2 →
    repairFields fs2 = .ok fs2
  | [], fs2, h => by
    cases h
    rfl
  | (k, v) :: rest, fs2, h => by
    unfold repairFields at h
    by_cases hk : (k == "body") = true
    · rw [if_pos hk] at h
      cases hv : repair_lazy_calls v with
      | error e => rw [hv] at h; exact absurd h (by simp)
      | ok v2 =>
        rw [hv] at h
        cases h
        unfold repairFields
        rw [if_pos hk, repair_lazy_calls_idem v v2 hv]
    · rw [if_neg hk] at h
      cases hr : repairFields rest with
      | error e => rw [hr] at h; exact absurd h (by simp)
      | ok rest2 =>
        rw [hr] at h
        cases h
        unfold repairFields
        rw [if_neg hk, repairFields_idem rest rest2 hr]

end

/-- Helper: `typeIs` only depends on the `type` binding. -/
theorem typeIs_congr (fs fs2 : List (String × JVal)) (t : String)
    (h : objGet fs2 "type" = objGet fs "type") : typeIs fs2 t = typeIs fs t := by
  unfold typeIs
  rw [h]

/-- Helper: `cleanCondFields` leaves bindings other than `body` untouched. -/
theorem cleanCondFields_objGet (inputs subNames : List JVal) :
    ∀ (fs fs2 : List (String × JVal)) (b2 : JVal),
    cleanCondFields inputs subNames fs = .ok (fs2, b2) →
    ∀ k, k ≠ "body" → objGet fs2 k = objGet fs k
  | [], fs2, b2, h, k, hk => by
    cases h
    have : ("body" == k) = false := by simpa using (Ne.symm hk)
    simp [objGet_cons, this]
  | (k2, v) :: rest, fs2, b2, h, k, hk => by
    unfold cleanCondFields at h
    by_cases hkb : (k2 == "body") = true
    · rw [if_pos hkb] at h
      cases hcb : clean_block inputs subNames v with
      | error e => rw [hcb] at h; exact absurd h (by simp)
      | ok b3 =>
        rw [hcb] at h
        cases h
        have hk2 : k2 = "body" := by simpa using hkb
        subst hk2
        have : ("body" == k) = false := by simpa using (Ne.symm hk)
        simp [objGet_cons, this]
    · rw [if_neg hkb] at h
      cases hr : cleanCondFields inputs subNames rest with
      | error e => rw [hr] at h; exact absurd h (by simp)
      | ok pr =>
        obtain ⟨rest2, b3⟩ := pr
        rw [hr] at h
        cases h
        by_cases hkk : (k2 == k) = true
        · simp [objGet_cons, hkk]
        · simp only [objGet_cons, hkk, if_false]
          exact cleanCondFields_objGet inputs subNames rest rest2 _ hr k hk

/-- Helper: a call statement already rewritten by `cleanStmts` is kept
unchanged by a second pass. -/
theorem cleanStmts_call_fix (inputs subNames : List JVal)
    (fs : List (String × JVal)) (newArgs tail : List JVal)
    (hc : typeIs fs "conditional" = false)
    (hch : (typeIs fs "channel_chain" || (objGet fs "start_variable").isSome) = false)
    (hcall : (typeIs fs "process_call" || (objGet fs "process_name").isSome) = true)
    (hdrop : ((typeIs fs "process_call" || (objGet fs "process_name").isSome) &&
        !inputs.isEmpty &&
        (subNames.any fun n => beqJVal n ((objGet fs "process_name").getD .null))) = false)
    (hpaIdem : processArgs inputs 0 newArgs = .ok newArgs)
    (htail : cleanStmts inputs subNames tail = .ok tail) :
    cleanStmts inputs subNames
      (.obj (if (objGet (objSet fs "args" (.arr newArgs)) "type").isSome
            then objSet fs "args" (.arr newArgs)
            else objSet (objSet fs "args" (.arr newArgs)) "type" (.str "process_call")) :: tail) =
    .ok (.obj (if (objGet (objSet fs "args" (.arr newArgs)) "type").isSome
            then objSet fs "args" (.arr newArgs)
            else objSet (objSet fs "args" (.arr newArgs)) "type" (.str "process_call")) :: tail) := by
  have hgt : objGet (objSet fs "args" (.arr newArgs)) "type" = objGet fs "type" :=
    objGet_objSet_other fs "args" "type" _ (by decide)
  have hgn : objGet (objSet fs "args" (.arr newArgs)) "process_name" =
      objGet fs "process_name" :=
    objGet_objSet_other fs "args" "process_name" _ (by decide)
  have hgs : objGet (objSet fs "args" (.arr newArgs)) "start_variable" =
      objGet fs "start_variable" :=
    objGet_objSet_other fs "args" "start_variable" _ (by decide)
  have hga : objGet (objSet fs "args" (.arr newArgs)) "args" = some (.arr newArgs) :=
    objGet_objSet_same fs "args" _
  by_cases hty : (objGet (objSet fs "args" (.arr newArgs)) "type").isSome = true
  · rw [if_pos hty]
    have p1 : typeIs (objSet fs "args" (.arr newArgs)) "conditional" = false := by
      unfold typeIs; rw [hgt]; exact hc
    have p2 : (typeIs (objSet fs "args" (.arr newArgs)) "channel_chain" ||
        (objGet (objSet fs "args" (.arr newArgs)) "start_variable").isSome) = false := by
      unfold typeIs; rw [hgt, hgs]; exact hch
    have p4 : (typeIs (objSet fs "args" (.arr newArgs)) "process_call" ||
        (objGet (objSet fs "args" (.arr newArgs)) "process_name").isSome) = true := by
      unfold typeIs; rw [hgt, hgn]; exact hcall
    have p3 : ((typeIs (objSet fs "args" (.arr newArgs)) "process_call" ||
        (objGet (objSet fs "args" (.arr newArgs)) "process_name").isSome) &&
        !inputs.isEmpty &&
        (subNames.any fun n =>
          beqJVal n ((objGet (objSet fs "args" (.arr newArgs)) "process_name").getD .null)))
        = false := by
      unfold typeIs; rw [hgt, hgn]; exact hdrop
    unfold cleanStmts
    rw [if_neg (by simp [p1])]
    dsimp only []
    rw [if_neg (by simp [p2]), if_neg (by simp [p3]), if_pos p4, hga]
    dsimp only [Option.getD]
    rw [show pyIterElems (.arr newArgs) = .ok newArgs from rfl]
    dsimp only []
    rw [hpaIdem]
    dsimp only []
    rw [objSet_self _ "args" _ hga, if_pos hty, htail]
  · rw [if_neg hty]
    have hgt3 : objGet (objSet (objSet fs "args" (.arr newArgs)) "type"
        (.str "process_call")) "type" = some (.str "process_call") :=
      objGet_objSet_same _ "type" _
    have hgn3 : objGet (objSet (objSet fs "args" (.arr newArgs)) "type"
        (.str "process_call")) "process_name" = objGet fs "process_name" := by
      rw [objGet_objSet_other _ "type" "process_name" _ (by decide), hgn]
    have hgs3 : objGet (objSet (objSet fs "args" (.arr newArgs)) "type"
        (.str "process_call")) "start_variable" = objGet fs "start_variable" := by
      rw [objGet_objSet_other _ "type" "start_variable" _ (by decide), hgs]
    have hga3 : objGet (objSet (objSet fs "args" (.arr newArgs)) "type"
        (.str "process_call")) "args" = some (.arr newArgs) := by
      rw [objGet_objSet_other _ "type" "args" _ (by decide), hga]
    have p1 : typeIs (objSet (objSet fs "args" (.arr newArgs)) "type"
        (.str "process_call")) "conditional" = false := by
      unfold typeIs
      rw [hgt3]
      decide
    have p2 : (typeIs (objSet (objSet fs "args" (.arr newArgs)) "type"
        (.str "process_call")) "channel_chain" ||
        (objGet (objSet (objSet fs "args" (.arr newArgs)) "type"
          (.str "process_call")) "start_variable").isSome) = false := by
      have hsv : (objGet fs "start_variable").isSome = false := by
        have := (Bool.or_eq_false_iff.mp hch).2
        exact this
      unfold typeIs
      rw [hgt3, hgs3, hsv]
      decide
    have ptc : typeIs (objSet (objSet fs "args" (.arr newArgs)) "type"
        (.str "process_call")) "process_call" = true := by
      unfold typeIs
      rw [hgt3]
      decide
    have p4 : (typeIs (objSet (objSet fs "args" (.arr newArgs)) "type"
        (.str "process_call")) "process_call" ||
        (objGet (objSet (objSet fs "args" (.arr newArgs)) "type"
          (.str "process_call")) "process_name").isSome) = true := by
      rw [ptc]
      simp
    have p3 : ((typeIs (objSet (objSet fs "args" (.arr newArgs)) "type"
        (.str "process_call")) "process_call" ||
        (objGet (objSet (objSet fs "args" (.arr newArgs)) "type"
          (.str "process_call")) "process_name").isSome) &&
        !inputs.isEmpty &&
        (subNames.any fun n =>
          beqJVal n ((objGet (objSet (objSet fs "args" (.arr newArgs)) "type"
            (.str "process_call")) "process_name").getD .null))) = false := by
      rw [ptc, hgn3]
      rw [hcall] at hdrop
      simpa using hdrop
    unfold cleanStmts
    rw [if_neg (by simp [p1])]
    dsimp only []
    rw [if_neg (by simp [p2]), if_neg (by simp [p3]), if_pos p4, hga3]
    dsimp only [Option.getD]
    rw [show pyIterElems (.arr newArgs) = .ok newArgs from rfl]
    dsimp only []
    rw [hpaIdem]
    dsimp only []
    rw [objSet_self _ "args" _ hga3, if_pos (by rw [hgt3]; rfl), htail]

mutual

/-- Helper (C7): `clean_block` is idempotent under root-closed string
inputs. -/
theorem clean_block_idem (inputs subNames : List JVal)
    (hH : rootClosedStrInputs inputs) : ∀ v y,
    clean_block inputs subNames v = .ok y → clean_block inputs subNames y = .ok y
  | .arr stmts, y, h => by
    unfold clean_block at h
    cases hl : cleanStmts inputs subNames stmts with
    | error e => rw [hl] at h; exact absurd h (by simp)
    | ok r =>
      rw [hl] at h
      cases h
      unfold clean_block
      rw [cleanStmts_idem inputs subNames hH stmts r hl]
  | .null, y, h => by cases h; rfl
  | .bool b, y, h => by cases h; rfl
  | .int n, y, h => by cases h; rfl
  | .str s, y, h => by cases h; rfl
  | .obj fs, y, h => by cases h; rfl

/-- Helper (C7): the statement-cleaning loop is idempotent under root-closed
string inputs. -/
theorem cleanStmts_idem (inputs subNames : List JVal)
    (hH : rootClosedStrInputs inputs) : ∀ l out,
    cleanStmts inputs subNames l = .ok out → cleanStmts inputs subNames out = .ok out
  | [], out, h => by cases h; rfl
  | .obj fs :: rest, out, h => by
    unfold cleanStmts at h
    by_cases hc : typeIs fs "conditional" = true
    · rw [if_pos hc] at h
      cases hccf : cleanCondFields inputs subNames fs with
      | error e => rw [hccf] at h; exact absurd h (by simp)
      | ok pr =>
        obtain ⟨fs2, b2⟩ := pr
        rw [hccf] at h
        dsimp only [] at h
        cases htl : cleanStmts inputs subNames rest with
        | error e => rw [htl] at h; exact absurd h (by simp)
        | ok tail =>
          rw [htl] at h
          dsimp only [] at h
          have htail := cleanStmts_idem inputs subNames hH rest tail htl
          by_cases hb : pyTruthy b2 = true
          · rw [if_pos hb] at h
            cases h
            have ht2 : typeIs fs2 "conditional" = true := by
              unfold typeIs
              rw [cleanCondFields_objGet inputs subNames fs fs2 b2 hccf "type" (by decide)]
              exact hc
            unfold cleanStmts
            rw [if_pos ht2, cleanCondFields_idem inputs subNames hH fs fs2 b2 hccf]
            dsimp only []
            rw [htail]
            dsimp only []
            rw [if_pos hb]
          · rw [if_neg hb] at h
            cases h
            exact htail
    · rw [if_neg hc] at h
      dsimp only [] at h
      by_cases hch : (typeIs fs "channel_chain" || (objGet fs "start_variable").isSome) = true
      · rw [if_pos hch] at h
        exact cleanStmts_idem inputs subNames hH rest out h
      · rw [if_neg hch] at h
        by_cases hdrop : ((typeIs fs "process_call" || (objGet fs "process_name").isSome) &&
            !inputs.isEmpty &&
            (subNames.any fun n => beqJVal n ((objGet fs "process_name").getD .null))) = true
        · rw [if_pos hdrop] at h
          exact cleanStmts_idem inputs subNames hH rest out h
        · rw [if_neg hdrop] at h
          by_cases hcall : (typeIs fs "process_call" || (objGet fs "process_name").isSome) = true
          · rw [if_pos hcall] at h
            cases hel : pyIterElems ((objGet fs "args").getD (.arr [])) with
            | error e => rw [hel] at h; exact absurd h (by simp)
            | ok elems =>
              rw [hel] at h
              dsimp only [] at h
              cases hpa : processArgs inputs 0 elems with
              | error e => rw [hpa] at h; exact absurd h (by simp)
              | ok newArgs =>
                rw [hpa] at h
                dsimp only [] at h
                cases htl : cleanStmts inputs subNames rest with
                | error e => rw [htl] at h; exact absurd h (by simp)
                | ok tail =>
                  rw [htl] at h
                  dsimp only [] at h
                  cases h
                  have htail := cleanStmts_idem inputs subNames hH rest tail htl
                  exact cleanStmts_call_fix inputs subNames fs newArgs tail
                    (by simpa using hc) (by simpa using hch) hcall
                    (by simpa using hdrop)
                    (processArgs_idem inputs hH 0 elems newArgs hpa) htail
          · rw [if_neg hcall] at h
            cases htl : cleanStmts inputs subNames rest with
            | error e => rw [htl] at h; exact absurd h (by simp)
            | ok tail =>
              rw [htl] at h
              dsimp only [] at h
              cases h
              have htail := cleanStmts_idem inputs subNames hH rest tail htl
              unfold cleanStmts
              rw [if_neg hc]
              dsimp only []
              rw [if_neg hch, if_neg hdrop, if_neg hcall, htail]
  | .null :: rest, out, h => cleanStmts_idem inputs subNames hH rest out h
  | .bool b :: rest, out, h => cleanStmts_idem inputs subNames hH rest out h
  | .int n :: rest, out, h => cleanStmts_idem inputs subNames hH rest out h
  | .str s :: rest, out, h => cleanStmts_idem inputs subNames hH rest out h
  | .arr xs :: rest, out, h => cleanStmts_idem inputs subNames hH rest out h

/-- Helper (C7): the fused body-cleaning walk is idempotent (same updated
fields, same body value). -/
theorem cleanCondFields_idem (inputs subNames : List JVal)
    (hH : rootClosedStrInputs inputs) : ∀ fs fs2 b2,
    cleanCondFields inputs subNames fs = .ok (fs2, b2) →
    cleanCondFields inputs subNames fs2 = .ok (fs2, b2)
  | [], fs2, b2, h => by
    cases h
    rfl
  | (k, v) :: rest, fs2, b2, h => by
    unfold cleanCondFields at h
    by_cases hk : (k == "body") = true
    · rw [if_pos hk] at h
      cases hcb : clean_block inputs subNames v with
      | error e => rw [hcb] at h; exact absurd h (by simp)
      | ok b3 =>
        rw [hcb] at h
        cases h
        unfold cleanCondFields
        rw [if_pos hk, clean_block_idem inputs subNames hH v _ hcb]
    · rw [if_neg hk] at h
      cases hr : cleanCondFields inputs subNames rest with
      | error e => rw [hr] at h; exact absurd h (by simp)
      | ok pr =>
        obtain ⟨rest2, b3⟩ := pr
        rw [hr] at h
        cases h
        unfold cleanCondFields
        rw [if_neg hk, cleanCondFields_idem inputs subNames hH rest rest2 _ hr]

end

/-- Helper (C7): deduplication is idempotent under root-closed string
inputs. -/
theorem deduplicate_logic_idem (x y : JVal)
    (hH : rootClosedStrInputs (extractedInputs x))
    (h : deduplicate_logic x = .ok y) : deduplicate_logic y = .ok y := by
  have h0 := h
  cases x with
  | obj vfs =>
    unfold deduplicate_logic at h
    dsimp only [] at h
    by_cases hs : pyTruthy ((objGet vfs "sub_workflows").getD (.arr [])) = true
    · rw [if_neg (by simp [hs])] at h
      cases hM : (objGet vfs "main_workflow").getD .null with
      | obj mfs =>
        rw [hM] at h
        dsimp only [] at h
        cases hIT : pyIterElems ((objGet vfs "sub_workflows").getD (.arr [])) with
        | error e => rw [hIT] at h; exact absurd h (by simp)
        | ok subElems =>
          rw [hIT] at h
          dsimp only [] at h
          cases hCB : clean_block
              (match (objGet mfs "take_channels").getD (.arr []) with
                | .arr l => l
                | _ => [])
              (subElems.filterMap fun s =>
                match s with
                | .obj sfs => objGet sfs "name"
                | _ => none)
              ((objGet mfs "body").getD (.arr [])) with
          | error e => rw [hCB] at h; exact absurd h (by simp)
          | ok bodyv =>
            rw [hCB] at h
            cases h
            have hinp : extractedInputs (JVal.obj vfs) =
                (match (objGet mfs "take_channels").getD (.arr []) with
                  | .arr l => l
                  | _ => []) := by
              unfold extractedInputs
              dsimp only []
              rw [hM]
            rw [hinp] at hH
            have hcbi := clean_block_idem _ _ hH _ _ hCB
            unfold deduplicate_logic
            dsimp only []
            rw [objGet_objSet_other vfs "main_workflow" "sub_workflows" _ (by decide)]
            rw [if_neg (by simp [hs])]
            have hM2 : (objGet (objSet vfs "main_workflow"
                (.obj (objSet mfs "body" bodyv))) "main_workflow").getD .null =
                .obj (objSet mfs "body" bodyv) := by
              rw [objGet_objSet_same]
              rfl
            rw [hM2]
            dsimp only []
            rw [objGet_objSet_other mfs "body" "take_channels" _ (by decide)]
            rw [hIT]
            dsimp only []
            have hB2 : (objGet (objSet mfs "body" bodyv) "body").getD (.arr []) = bodyv := by
              rw [objGet_objSet_same]
              rfl
            rw [hB2, hcbi]
            dsimp only []
            rw [objSet_objSet_same, objSet_objSet_same]
      | null =>
        rw [hM] at h
        cases h
        exact h0
      | bool b =>
        rw [hM] at h
        cases h
        exact h0
      | int n =>
        rw [hM] at h
        cases h
        exact h0
      | str s =>
        rw [hM] at h
        cases h
        exact h0
      | arr xs =>
        rw [hM] at h
        cases h
        exact h0
    · rw [if_pos (by simp [Bool.not_eq_true] at hs; simp [hs])] at h
      cases h
      exact h0
  | null => exact absurd h (by simp [deduplicate_logic])
  | bool b => exact absurd h (by simp [deduplicate_logic])
  | int n => exact absurd h (by simp [deduplicate_logic])
  | str s => exact absurd h (by simp [deduplicate_logic])
  | arr xs => exact absurd h (by simp [deduplicate_logic])

/-- Helper (C7): a fixpoint of `f` pointwise lifts to a fixpoint of
`List.mapM f` in the `Except` monad. -/
theorem mapM_fix (f : JVal → Except String JVal)
    (hf : ∀ a b, f a = .ok b → f b = .ok b) :
    ∀ l l2 : List JVal, l.mapM f = .ok l2 → l2.mapM f = .ok l2 := by
  intro l
  induction l with
  | nil =>
    intro l2 h
    rw [List.mapM_nil] at h
    cases h
    rw [List.mapM_nil]
    rfl
  | cons a l ih =>
    intro l2 h
    rw [List.mapM_cons] at h
    simp only [Bind.bind] at h
    cases hfa : f a with
    | error e =>
      rw [hfa] at h
      simp only [Except.bind] at h
      exact absurd h (by simp)
    | ok b =>
      rw [hfa] at h
      simp only [Except.bind] at h
      cases hl : l.mapM f with
      | error e =>
        rw [hl] at h
        simp only [Except.bind] at h
        exact absurd h (by simp [Pure.pure, Except.pure])
      | ok bs =>
        rw [hl] at h
        simp only [Except.bind, Pure.pure, Except.pure] at h
        cases h
        rw [List.mapM_cons]
        simp only [Bind.bind]
        rw [hf a b hfa]
        simp only [Except.bind]
        rw [ih bs hl]
        simp only [Except.bind, Pure.pure, Except.pure]

/-- Helper (C7): a successful `List.mapM f` run relates input and output
lists pointwise by `f`. -/
theorem mapM_forall2 (f : JVal → Except String JVal) :
    ∀ l l2 : List JVal, l.mapM f = .ok l2 →
    List.Forall₂ (fun a b => f a = .ok b) l l2 := by
  intro l
  induction l with
  | nil =>
    intro l2 h
    rw [List.mapM_nil] at h
    cases h
    exact List.Forall₂.nil
  | cons a l ih =>
    intro l2 h
    rw [List.mapM_cons] at h
    simp only [Bind.bind] at h
    cases hfa : f a with
    | error e =>
      rw [hfa] at h
      simp only [Except.bind] at h
      exact absurd h (by simp)
    | ok b =>
      rw [hfa] at h
      simp only [Except.bind] at h
      cases hl : l.mapM f with
      | error e =>
        rw [hl] at h
        simp only [Except.bind] at h
        exact absurd h (by simp [Pure.pure, Except.pure])
      | ok bs =>
        rw [hl] at h
        simp only [Except.bind, Pure.pure, Except.pure] at h
        cases h
        exact List.Forall₂.cons hfa (ih bs hl)

/-- Helper (C7): the emit shorthand rewrite is a fixpoint operator — its
output always passes through unchanged, since the rewritten dict has a
truthy internal variable. -/
theorem handle_implicit_shorthand_fix : ∀ v w,
    handle_implicit_shorthand v = .ok w → handle_implicit_shorthand w = .ok w
  | .obj fs, w, h => by
    have h0 := h
    unfold handle_implicit_shorthand at h
    dsimp only [] at h
    cases hin : pyInStr "." ((objGet fs "export_name").getD (.str "")) with
    | error e => rw [hin] at h; exact absurd h (by simp)
    | ok hasDot =>
      rw [hin] at h
      dsimp only [] at h
      by_cases hc :
          (hasDot && !pyTruthy ((objGet fs "internal_variable").getD .null)) = true
      · rw [if_pos hc] at h
        simp only [Bool.and_eq_true] at hc
        obtain ⟨hdt, hfalsy⟩ := hc
        cases hex : (objGet fs "export_name").getD (.str "") with
        | str e =>
          rw [hex] at h
          dsimp only [] at h
          cases h
          rw [hex] at hin
          simp only [pyInStr, Except.ok.injEq] at hin
          rw [hdt] at hin
          have he : e ≠ "" := by
            intro h0e
            rw [h0e] at hin
            exact absurd hin (by decide)
          unfold handle_implicit_shorthand
          dsimp only []
          rw [objGet_objSet_same]
          rw [objGet_objSet_other _ "internal_variable" "export_name" _ (by decide)]
          rw [objGet_objSet_same]
          simp [Option.getD, pyInStr, pyTruthy, he]
        | null => rw [hex] at h; exact absurd h (by simp)
        | bool b => rw [hex] at h; exact absurd h (by simp)
        | int n => rw [hex] at h; exact absurd h (by simp)
        | arr xs => rw [hex] at h; exact absurd h (by simp)
        | obj fs2 => rw [hex] at h; exact absurd h (by simp)
      · rw [if_neg hc] at h
        cases h
        exact h0
  | .null, w, h => by exact absurd h (by simp [handle_implicit_shorthand])
  | .bool b, w, h => by exact absurd h (by simp [handle_implicit_shorthand])
  | .int n, w, h => by exact absurd h (by simp [handle_implicit_shorthand])
  | .str s, w, h => by exact absurd h (by simp [handle_implicit_shorthand])
  | .arr xs, w, h => by exact absurd h (by simp [handle_implicit_shorthand])

/-- Helper (C7): the per-workflow emit pass is idempotent. -/
theorem mapEmits_idem : ∀ wf w, mapEmits wf = .ok w → mapEmits w = .ok w
  | .obj wfs, w, h => by
    have h0 := h
    unfold mapEmits at h
    dsimp only [] at h
    cases hec : objGet wfs "emit_channels" with
    | none => rw [hec] at h; cases h; exact h0
    | some ev =>
      cases ev with
      | arr es =>
        rw [hec] at h
        dsimp only [] at h
        cases hm : es.mapM handle_implicit_shorthand with
        | error e => rw [hm] at h; exact absurd h (by simp)
        | ok es2 =>
          rw [hm] at h
          cases h
          unfold mapEmits
          dsimp only []
          rw [objGet_objSet_same]
          dsimp only []
          rw [mapM_fix handle_implicit_shorthand handle_implicit_shorthand_fix es es2 hm]
          dsimp only []
          rw [objSet_objSet_same]
      | null => rw [hec] at h; cases h; exact h0
      | bool b => rw [hec] at h; cases h; exact h0
      | int n => rw [hec] at h; cases h; exact h0
      | str s => rw [hec] at h; cases h; exact h0
      | obj fs2 => rw [hec] at h; cases h; exact h0
  | .null, w, h => by cases h; rfl
  | .bool b, w, h => by cases h; rfl
  | .int n, w, h => by cases h; rfl
  | .str s, w, h => by cases h; rfl
  | .arr xs, w, h => by cases h; rfl

/-- Helper (C7): the entrypoint lazy-call pass is idempotent. -/
theorem canonEntrypoint_idem : ∀ v w,
    canonEntrypoint v = .ok w → canonEntrypoint w = .ok w
  | .obj vfs, w, h => by
    have h0 := h
    unfold canonEntrypoint at h
    dsimp only [] at h
    cases hep : objGet vfs "entrypoint" with
    | none => rw [hep] at h; cases h; exact h0
    | some ev =>
      cases ev with
      | obj efs =>
        rw [hep] at h
        dsimp only [] at h
        cases hb : objGet efs "body" with
        | none => rw [hb] at h; cases h; exact h0
        | some b =>
          rw [hb] at h
          dsimp only [] at h
          cases hr : repair_lazy_calls b with
          | error e => rw [hr] at h; exact absurd h (by simp)
          | ok b2 =>
            rw [hr] at h
            cases h
            unfold canonEntrypoint
            dsimp only []
            rw [objGet_objSet_same]
            dsimp only []
            rw [objGet_objSet_same]
            dsimp only []
            rw [repair_lazy_calls_idem b b2 hr]
            dsimp only []
            rw [objSet_objSet_same, objSet_objSet_same]
      | null => rw [hep] at h; cases h; exact h0
      | bool b => rw [hep] at h; cases h; exact h0
      | int n => rw [hep] at h; cases h; exact h0
      | str s => rw [hep] at h; cases h; exact h0
      | arr xs => rw [hep] at h; cases h; exact h0
  | .null, w, h => by cases h; rfl
  | .bool b, w, h => by cases h; rfl
  | .int n, w, h => by cases h; rfl
  | .str s, w, h => by cases h; rfl
  | .arr xs, w, h => by cases h; rfl

/-- Helper (C7): the tree-level emit pass is idempotent. -/
theorem canonEmits_idem : ∀ v w, canonEmits v = .ok w → canonEmits w = .ok w
  | .obj vfs, w, h => by
    have h0 := h
    unfold canonEmits at h
    dsimp only [] at h
    cases hmw : objGet vfs "main_workflow" with
    | some mw =>
      rw [hmw] at h
      dsimp only [] at h
      cases hme : mapEmits mw with
      | error e => rw [hme] at h; exact absurd h (by simp)
      | ok mw2 =>
        rw [hme] at h
        dsimp only [] at h
        cases hsw : objGet (objSet vfs "main_workflow" mw2) "sub_workflows" with
        | some sv =>
          cases sv with
          | arr subs =>
            rw [hsw] at h
            dsimp only [] at h
            cases hsm : subs.mapM mapEmits with
            | error e => rw [hsm] at h; exact absurd h (by simp)
            | ok subs2 =>
              rw [hsm] at h
              cases h
              unfold canonEmits
              dsimp only []
              rw [objGet_objSet_other _ "sub_workflows" "main_workflow" _ (by decide)]
              rw [objGet_objSet_same]
              dsimp only []
              rw [mapEmits_idem mw mw2 hme]
              dsimp only []
              rw [objGet_objSet_other _ "main_workflow" "sub_workflows" _ (by decide)]
              rw [objGet_objSet_same]
              dsimp only []
              rw [mapM_fix mapEmits mapEmits_idem subs subs2 hsm]
              dsimp only []
              rw [objSet_self _ "main_workflow" mw2 (by
                rw [objGet_objSet_other _ "sub_workflows" "main_workflow" _ (by decide)]
                exact objGet_objSet_same _ _ _)]
              rw [objSet_self _ "sub_workflows" _ (objGet_objSet_same _ _ _)]
          | null =>
            rw [hsw] at h
            cases h
            unfold canonEmits
            dsimp only []
            rw [objGet_objSet_same]
            dsimp only []
            rw [mapEmits_idem mw mw2 hme]
            dsimp only []
            rw [objSet_objSet_same, hsw]
          | bool b =>
            rw [hsw] at h
            cases h
            unfold canonEmits
            dsimp only []
            rw [objGet_objSet_same]
            dsimp only []
            rw [mapEmits_idem mw mw2 hme]
            dsimp only []
            rw [objSet_objSet_same, hsw]
          | int n =>
            rw [hsw] at h
            cases h
            unfold canonEmits
            dsimp only []
            rw [objGet_objSet_same]
            dsimp only []
            rw [mapEmits_idem mw mw2 hme]
            dsimp only []
            rw [objSet_objSet_same, hsw]
          | str s =>
            rw [hsw] at h
            cases h
            unfold canonEmits
            dsimp only []
            rw [objGet_objSet_same]
            dsimp only []
            rw [mapEmits_idem mw mw2 hme]
            dsimp only []
            rw [objSet_objSet_same, hsw]
          | obj fs2 =>
            rw [hsw] at h
            cases h
            unfold canonEmits
            dsimp only []
            rw [objGet_objSet_same]
            dsimp only []
            rw [mapEmits_idem mw mw2 hme]
            dsimp only []
            rw [objSet_objSet_same, hsw]
        | none =>
          rw [hsw] at h
          cases h
          unfold canonEmits
          dsimp only []
          rw [objGet_objSet_same]
          dsimp only []
          rw [mapEmits_idem mw mw2 hme]
          dsimp only []
          rw [objSet_objSet_same, hsw]
    | none =>
      rw [hmw] at h
      dsimp only [] at h
      cases hsw : objGet vfs "sub_workflows" with
      | some sv =>
        cases sv with
        | arr subs =>
          rw [hsw] at h
          dsimp only [] at h
          cases hsm : subs.mapM mapEmits with
          | error e => rw [hsm] at h; exact absurd h (by simp)
          | ok subs2 =>
            rw [hsm] at h
            cases h
            unfold canonEmits
            dsimp only []
            rw [objGet_objSet_other _ "sub_workflows" "main_workflow" _ (by decide)]
            rw [hmw]
            dsimp only []
            rw [objGet_objSet_same]
            dsimp only []
            rw [mapM_fix mapEmits mapEmits_idem subs subs2 hsm]
            dsimp only []
            rw [objSet_objSet_same]
        | null => rw [hsw] at h; cases h; exact h0
        | bool b => rw [hsw] at h; cases h; exact h0
        | int n => rw [hsw] at h; cases h; exact h0
        | str s => rw [hsw] at h; cases h; exact h0
        | obj fs2 => rw [hsw] at h; cases h; exact h0
      | none => rw [hsw] at h; cases h; exact h0
  | .null, w, h => by cases h; rfl
  | .bool b, w, h => by cases h; rfl
  | .int n, w, h => by cases h; rfl
  | .str s, w, h => by cases h; rfl
  | .arr xs, w, h => by cases h; rfl

/-- Helper (C7): a `getD .null` result that is an object pins down the
option. -/
theorem getD_null_obj (o : Option JVal) (fs : List (String × JVal))
    (h : o.getD .null = .obj fs) : o = some (.obj fs) := by
  cases o with
  | none => exact absurd h (by simp)
  | some v => rw [Option.getD_some] at h; rw [h]

/-- Helper (C7): lists of equal length are equally empty. -/
theorem isEmpty_eq_of_length (l1 l2 : List JVal) (h : l1.length = l2.length) :
    l1.isEmpty = l2.isEmpty := by
  cases l1 with
  | nil =>
    cases l2 with
    | nil => rfl
    | cons b bs => simp at h
  | cons a as =>
    cases l2 with
    | nil => simp at h
    | cons b bs => rfl

/-- Helper (C7): the per-workflow emit pass keeps the dict an object and
leaves every key other than `emit_channels` untouched. -/
theorem mapEmits_obj (mfs : List (String × JVal)) (m2 : JVal)
    (h : mapEmits (.obj mfs) = .ok m2) :
    ∃ m2fs, m2 = .obj m2fs ∧
      ∀ k, k ≠ "emit_channels" → objGet m2fs k = objGet mfs k := by
  unfold mapEmits at h
  dsimp only [] at h
  cases hec : objGet mfs "emit_channels" with
  | none =>
    rw [hec] at h
    cases h
    exact ⟨mfs, rfl, fun k hk => rfl⟩
  | some ev =>
    cases ev with
    | arr es =>
      rw [hec] at h
      dsimp only [] at h
      cases hm : es.mapM handle_implicit_shorthand with
      | error e => rw [hm] at h; exact absurd h (by simp)
      | ok es2 =>
        rw [hm] at h
        cases h
        exact ⟨objSet mfs "emit_channels" (.arr es2), rfl,
          fun k hk => objGet_objSet_other mfs "emit_channels" k _ (Ne.symm hk)⟩
    | null => rw [hec] at h; cases h; exact ⟨mfs, rfl, fun k hk => rfl⟩
    | bool b => rw [hec] at h; cases h; exact ⟨mfs, rfl, fun k hk => rfl⟩
    | int n => rw [hec] at h; cases h; exact ⟨mfs, rfl, fun k hk => rfl⟩
    | str s => rw [hec] at h; cases h; exact ⟨mfs, rfl, fun k hk => rfl⟩
    | obj fs2 => rw [hec] at h; cases h; exact ⟨mfs, rfl, fun k hk => rfl⟩

/-- Helper (C7): the per-workflow emit pass is the identity on
non-objects. -/
theorem mapEmits_not_obj : ∀ m m2, mapEmits m = .ok m2 →
    (∀ fs, m ≠ .obj fs) → m2 = m
  | .obj fs, m2, h, hm => absurd rfl (hm fs)
  | .null, m2, h, _ => by cases h; rfl
  | .bool b, m2, h, _ => by cases h; rfl
  | .int n, m2, h, _ => by cases h; rfl
  | .str s, m2, h, _ => by cases h; rfl
  | .arr xs, m2, h, _ => by cases h; rfl

/-- Helper (C7): the emit pass over a sub-workflow list preserves the
harvested `name` fields. -/
theorem mapEmits_names (subs subs2 : List JVal)
    (h : subs.mapM mapEmits = .ok subs2) :
    subs2.filterMap (fun s => match s with | .obj sfs => objGet sfs "name" | _ => none)
      = subs.filterMap (fun s => match s with | .obj sfs => objGet sfs "name" | _ => none) := by
  have hf := mapM_forall2 mapEmits subs subs2 h
  clear h
  induction hf with
  | nil => rfl
  | cons ha hl ih =>
    rw [List.filterMap_cons, List.filterMap_cons, ih]
    rename_i a b l1 l2
    cases a with
    | obj afs =>
      obtain ⟨bfs, hb, hpres⟩ := mapEmits_obj afs b ha
      subst hb
      dsimp only []
      rw [hpres "name" (by decide)]
    | null => rw [mapEmits_not_obj _ _ ha (fun fs => by simp)]
    | bool bb => rw [mapEmits_not_obj _ _ ha (fun fs => by simp)]
    | int n => rw [mapEmits_not_obj _ _ ha (fun fs => by simp)]
    | str s => rw [mapEmits_not_obj _ _ ha (fun fs => by simp)]
    | arr xs => rw [mapEmits_not_obj _ _ ha (fun fs => by simp)]

/-- Helper (C7): a deduplication fixpoint transfers to any tree whose
`sub_workflows` is equally truthy, iterates to the same harvested names,
and whose main workflow agrees on `take_channels` and `body`. -/
theorem dedup_fix_transfer (zfs Yfs : List (String × JVal))
    (hz : deduplicate_logic (.obj zfs) = .ok (.obj zfs))
    (hT : pyTruthy ((objGet Yfs "sub_workflows").getD (.arr []))
        = pyTruthy ((objGet zfs "sub_workflows").getD (.arr [])))
    (hI : ∀ subElems, pyIterElems ((objGet zfs "sub_workflows").getD (.arr [])) = .ok subElems →
        ∃ subElems2, pyIterElems ((objGet Yfs "sub_workflows").getD (.arr [])) = .ok subElems2 ∧
          subElems2.filterMap (fun s => match s with | .obj sfs => objGet sfs "name" | _ => none)
            = subElems.filterMap (fun s => match s with | .obj sfs => objGet sfs "name" | _ => none))
    (hMrel : ((objGet Yfs "main_workflow").getD .null = (objGet zfs "main_workflow").getD .null)
        ∨ (∃ mfs m2fs, (objGet zfs "main_workflow").getD .null = .obj mfs ∧
            (objGet Yfs "main_workflow").getD .null = .obj m2fs ∧
            objGet m2fs "take_channels" = objGet mfs "take_channels" ∧
            objGet m2fs "body" = objGet mfs "body")) :
    deduplicate_logic (.obj Yfs) = .ok (.obj Yfs) := by
  unfold deduplicate_logic at hz
  dsimp only [] at hz
  by_cases hs : pyTruthy ((objGet zfs "sub_workflows").getD (.arr [])) = true
  · rw [if_neg (by simp [hs])] at hz
    cases hMz : (objGet zfs "main_workflow").getD .null with
    | obj mfs0 =>
      rw [hMz] at hz
      dsimp only [] at hz
      cases hIT : pyIterElems ((objGet zfs "sub_workflows").getD (.arr [])) with
      | error e => rw [hIT] at hz; exact absurd hz (by simp)
      | ok subElems =>
        rw [hIT] at hz
        dsimp only [] at hz
        cases hCB : clean_block
            (match (objGet mfs0 "take_channels").getD (.arr []) with
              | .arr l => l
              | _ => [])
            (subElems.filterMap fun s =>
              match s with
              | .obj sfs => objGet sfs "name"
              | _ => none)
            ((objGet mfs0 "body").getD (.arr [])) with
        | error e => rw [hCB] at hz; exact absurd hz (by simp)
        | ok bodyv =>
          rw [hCB] at hz
          injection hz with hz1
          injection hz1 with hz2
          have hg : objGet zfs "main_workflow" = some (.obj (objSet mfs0 "body" bodyv)) := by
            conv_lhs => rw [← hz2]
            exact objGet_objSet_same _ _ _
          have hmfs : objSet mfs0 "body" bodyv = mfs0 := by
            have hM := hMz
            rw [hg, Option.getD_some] at hM
            injection hM
          have hgb : objGet mfs0 "body" = some bodyv := by
            conv_lhs => rw [← hmfs]
            exact objGet_objSet_same _ _ _
          have hB : (objGet mfs0 "body").getD (.arr []) = bodyv := by
            rw [hgb]; rfl
          rw [hB] at hCB
          obtain ⟨m2fs, hym, htake, hbody⟩ :
              ∃ m2fs, (objGet Yfs "main_workflow").getD .null = .obj m2fs ∧
                objGet m2fs "take_channels" = objGet mfs0 "take_channels" ∧
                objGet m2fs "body" = objGet mfs0 "body" := by
            cases hMrel with
            | inl heq => exact ⟨mfs0, heq.trans hMz, rfl, rfl⟩
            | inr hr =>
              obtain ⟨mfs, m2fs, hzm, hym, ht, hb⟩ := hr
              rw [hMz] at hzm
              injection hzm with hzm1
              rw [← hzm1] at ht hb
              exact ⟨m2fs, hym, ht, hb⟩
          obtain ⟨subElems2, hIT2, hnames⟩ := hI subElems hIT
          unfold deduplicate_logic
          dsimp only []
          rw [hT, if_neg (by simp [hs])]
          rw [hym]
          dsimp only []
          rw [htake]
          rw [hIT2]
          dsimp only []
          rw [hnames, hbody, hB, hCB]
          dsimp only []
          rw [objSet_self m2fs "body" bodyv (by rw [hbody, hgb])]
          rw [objSet_self Yfs "main_workflow" _ (getD_null_obj _ _ hym)]
    | null =>
      cases hMrel with
      | inl heq =>
        unfold deduplicate_logic
        dsimp only []
        rw [hT, if_neg (by simp [hs]), heq, hMz]
      | inr hr =>
        obtain ⟨mfs, m2fs, hzm, hym, ht, hb⟩ := hr
        rw [hMz] at hzm
        exact absurd hzm (by simp)
    | bool b =>
      cases hMrel with
      | inl heq =>
        unfold deduplicate_logic
        dsimp only []
        rw [hT, if_neg (by simp [hs]), heq, hMz]
      | inr hr =>
        obtain ⟨mfs, m2fs, hzm, hym, ht, hb⟩ := hr
        rw [hMz] at hzm
        exact absurd hzm (by simp)
    | int n =>
      cases hMrel with
      | inl heq =>
        unfold deduplicate_logic
        dsimp only []
        rw [hT, if_neg (by simp [hs]), heq, hMz]
      | inr hr =>
        obtain ⟨mfs, m2fs, hzm, hym, ht, hb⟩ := hr
        rw [hMz] at hzm
        exact absurd hzm (by simp)
    | str s =>
      cases hMrel with
      | inl heq =>
        unfold deduplicate_logic
        dsimp only []
        rw [hT, if_neg (by simp [hs]), heq, hMz]
      | inr hr =>
        obtain ⟨mfs, m2fs, hzm, hym, ht, hb⟩ := hr
        rw [hMz] at hzm
        exact absurd hzm (by simp)
    | arr xs =>
      cases hMrel with
      | inl heq =>
        unfold deduplicate_logic
        dsimp only []
        rw [hT, if_neg (by simp [hs]), heq, hMz]
      | inr hr =>
        obtain ⟨mfs, m2fs, hzm, hym, ht, hb⟩ := hr
        rw [hMz] at hzm
        exact absurd hzm (by simp)
  · unfold deduplicate_logic
    dsimp only []
    rw [hT]
    rw [if_pos (by simp [Bool.not_eq_true] at hs; simp [hs])]

/-- Helper (C7): the entrypoint repair pass preserves deduplication
fixpoints (it only rewrites the `entrypoint` field). -/
theorem dedup_fix_canonEntrypoint (z w : JVal)
    (hz : deduplicate_logic z = .ok z) (h : canonEntrypoint z = .ok w) :
    deduplicate_logic w = .ok w := by
  cases z with
  | obj zfs =>
    unfold canonEntrypoint at h
    dsimp only [] at h
    cases hep : objGet zfs "entrypoint" with
    | none => rw [hep] at h; cases h; exact hz
    | some ev =>
      cases ev with
      | obj efs =>
        rw [hep] at h
        dsimp only [] at h
        cases hb : objGet efs "body" with
        | none => rw [hb] at h; cases h; exact hz
        | some b =>
          rw [hb] at h
          dsimp only [] at h
          cases hr : repair_lazy_calls b with
          | error e => rw [hr] at h; exact absurd h (by simp)
          | ok b2 =>
            rw [hr] at h
            cases h
            exact dedup_fix_transfer zfs _ hz
              (by rw [objGet_objSet_other _ "entrypoint" "sub_workflows" _ (by decide)])
              (fun s hsE => ⟨s, by
                rw [objGet_objSet_other _ "entrypoint" "sub_workflows" _ (by decide)]
                exact hsE, rfl⟩)
              (.inl (by
                rw [objGet_objSet_other _ "entrypoint" "main_workflow" _ (by decide)]))
      | null => rw [hep] at h; cases h; exact hz
      | bool bb => rw [hep] at h; cases h; exact hz
      | int n => rw [hep] at h; cases h; exact hz
      | str s => rw [hep] at h; cases h; exact hz
      | arr xs => rw [hep] at h; cases h; exact hz
  | null => exact absurd hz (by simp [deduplicate_logic])
  | bool b => exact absurd hz (by simp [deduplicate_logic])
  | int n => exact absurd hz (by simp [deduplicate_logic])
  | str s => exact absurd hz (by simp [deduplicate_logic])
  | arr xs => exact absurd hz (by simp [deduplicate_logic])

/-- Helper (C7): an entrypoint-pass fixpoint transfers to any object that
carries the same `entrypoint` field. -/
theorem entry_fix_shift (zfs Yfs : List (String × JVal))
    (hep : objGet Yfs "entrypoint" = objGet zfs "entrypoint")
    (hz : canonEntrypoint (.obj zfs) = .ok (.obj zfs)) :
    canonEntrypoint (.obj Yfs) = .ok (.obj Yfs) := by
  unfold canonEntrypoint at hz
  dsimp only [] at hz
  cases hepz : objGet zfs "entrypoint" with
  | none =>
    unfold canonEntrypoint
    dsimp only []
    rw [hep, hepz]
  | some ev =>
    cases ev with
    | obj efs =>
      rw [hepz] at hz
      dsimp only [] at hz
      cases hb : objGet efs "body" with
      | none =>
        unfold canonEntrypoint
        dsimp only []
        rw [hep, hepz]
        dsimp only []
        rw [hb]
      | some b =>
        rw [hb] at hz
        dsimp only [] at hz
        cases hr : repair_lazy_calls b with
        | error e => rw [hr] at hz; exact absurd hz (by simp)
        | ok b2 =>
          rw [hr] at hz
          injection hz with hz1
          injection hz1 with hz2
          have hge : objGet zfs "entrypoint" = some (.obj (objSet efs "body" b2)) := by
            conv_lhs => rw [← hz2]
            exact objGet_objSet_same _ _ _
          rw [hepz] at hge
          injection hge with hge1
          injection hge1 with hefs
          have hgb : objGet efs "body" = some b2 := by
            conv_lhs => rw [hefs]
            exact objGet_objSet_same _ _ _
          rw [hb] at hgb
          injection hgb with hbb
          subst hbb
          unfold canonEntrypoint
          dsimp only []
          rw [hep, hepz]
          dsimp only []
          rw [hb]
          dsimp only []
          rw [hr]
          dsimp only []
          rw [← hefs]
          rw [objSet_self Yfs "entrypoint" _ (by rw [hep, hepz])]
    | null =>
      unfold canonEntrypoint
      dsimp only []
      rw [hep, hepz]
    | bool b =>
      unfold canonEntrypoint
      dsimp only []
      rw [hep, hepz]
    | int n =>
      unfold canonEntrypoint
      dsimp only []
      rw [hep, hepz]
    | str s =>
      unfold canonEntrypoint
      dsimp only []
      rw [hep, hepz]
    | arr xs =>
      unfold canonEntrypoint
      dsimp only []
      rw [hep, hepz]

/-- Helper (C7): what the tree-level emit pass does to an object: it keeps
the `entrypoint` field, preserves truthiness and harvested names of
`sub_workflows`, and relates the main workflow by the per-workflow emit
pass. -/
theorem canonEmits_obj_rel : ∀ zfs w, canonEmits (.obj zfs) = .ok w →
    ∃ Yfs, w = .obj Yfs ∧
      objGet Yfs "entrypoint" = objGet zfs "entrypoint" ∧
      pyTruthy ((objGet Yfs "sub_workflows").getD (.arr []))
        = pyTruthy ((objGet zfs "sub_workflows").getD (.arr [])) ∧
      (∀ subElems, pyIterElems ((objGet zfs "sub_workflows").getD (.arr [])) = .ok subElems →
        ∃ subElems2, pyIterElems ((objGet Yfs "sub_workflows").getD (.arr [])) = .ok subElems2 ∧
          subElems2.filterMap (fun s => match s with | .obj sfs => objGet sfs "name" | _ => none)
            = subElems.filterMap (fun s => match s with | .obj sfs => objGet sfs "name" | _ => none)) ∧
      (((objGet Yfs "main_workflow").getD .null = (objGet zfs "main_workflow").getD .null)
        ∨ (∃ mfs m2fs, (objGet zfs "main_workflow").getD .null = .obj mfs ∧
            (objGet Yfs "main_workflow").getD .null = .obj m2fs ∧
            objGet m2fs "take_channels" = objGet mfs "take_channels" ∧
            objGet m2fs "body" = objGet mfs "body")) := by
  intro zfs w h
  unfold canonEmits at h
  dsimp only [] at h
  cases hmw : objGet zfs "main_workflow" with
  | some M =>
    rw [hmw] at h
    dsimp only [] at h
    cases hme : mapEmits M with
    | error e => rw [hme] at h; exact absurd h (by simp)
    | ok M2 =>
      rw [hme] at h
      dsimp only [] at h
      have hMrelGen : ∀ Yfs : List (String × JVal),
          objGet Yfs "main_workflow" = some M2 →
          (((objGet Yfs "main_workflow").getD .null = M)
            ∨ (∃ mfs m2fs, M = .obj mfs ∧
                (objGet Yfs "main_workflow").getD .null = .obj m2fs ∧
                objGet m2fs "take_channels" = objGet mfs "take_channels" ∧
                objGet m2fs "body" = objGet mfs "body")) := by
        intro Yfs hY
        cases M with
        | obj Mfs =>
          obtain ⟨M2fs, hM2eq, hpres⟩ := mapEmits_obj Mfs M2 hme
          right
          refine ⟨Mfs, M2fs, rfl, ?_, hpres "take_channels" (by decide),
            hpres "body" (by decide)⟩
          rw [hY, Option.getD_some]
          exact hM2eq
        | null => left; rw [hY, Option.getD_some, mapEmits_not_obj _ _ hme (fun fs => by simp)]
        | bool bb => left; rw [hY, Option.getD_some, mapEmits_not_obj _ _ hme (fun fs => by simp)]
        | int n => left; rw [hY, Option.getD_some, mapEmits_not_obj _ _ hme (fun fs => by simp)]
        | str s => left; rw [hY, Option.getD_some, mapEmits_not_obj _ _ hme (fun fs => by simp)]
        | arr xs => left; rw [hY, Option.getD_some, mapEmits_not_obj _ _ hme (fun fs => by simp)]
      have hswz : objGet (objSet zfs "main_workflow" M2) "sub_workflows"
          = objGet zfs "sub_workflows" := objGet_objSet_other _ _ _ _ (by decide)
      cases hsw : objGet (objSet zfs "main_workflow" M2) "sub_workflows" with
      | some sv =>
        cases sv with
        | arr subs =>
          rw [hsw] at h
          dsimp only [] at h
          cases hsm : subs.mapM mapEmits with
          | error e => rw [hsm] at h; exact absurd h (by simp)
          | ok subs2 =>
            rw [hsm] at h
            cases h
            have hzsw : objGet zfs "sub_workflows" = some (.arr subs) := by
              rw [← hswz]; exact hsw
            refine ⟨objSet (objSet zfs "main_workflow" M2) "sub_workflows" (.arr subs2),
              rfl, ?_, ?_, ?_,
              hMrelGen (objSet (objSet zfs "main_workflow" M2) "sub_workflows" (.arr subs2)) (by
              rw [objGet_objSet_other _ "sub_workflows" "main_workflow" _ (by decide)]
              exact objGet_objSet_same _ _ _)⟩
            · rw [objGet_objSet_other _ "sub_workflows" "entrypoint" _ (by decide)]
              rw [objGet_objSet_other _ "main_workflow" "entrypoint" _ (by decide)]
            · rw [objGet_objSet_same, hzsw]
              simp only [Option.getD_some, pyTruthy]
              rw [isEmpty_eq_of_length subs2 subs
                ((mapM_forall2 mapEmits subs subs2 hsm).length_eq.symm)]
            · intro s hs
              rw [hzsw] at hs
              simp only [Option.getD_some, pyIterElems, Except.ok.injEq] at hs
              subst hs
              refine ⟨subs2, ?_, mapEmits_names subs subs2 hsm⟩
              rw [objGet_objSet_same]
              rfl
        | null =>
          rw [hsw] at h
          cases h
          exact ⟨_, rfl,
            objGet_objSet_other _ "main_workflow" "entrypoint" _ (by decide),
            by rw [objGet_objSet_other _ "main_workflow" "sub_workflows" _ (by decide)],
            fun s hs => ⟨s, by
              rw [objGet_objSet_other _ "main_workflow" "sub_workflows" _ (by decide)]
              exact hs, rfl⟩,
            hMrelGen _ (objGet_objSet_same _ _ _)⟩
        | bool bb =>
          rw [hsw] at h
          cases h
          exact ⟨_, rfl,
            objGet_objSet_other _ "main_workflow" "entrypoint" _ (by decide),
            by rw [objGet_objSet_other _ "main_workflow" "sub_workflows" _ (by decide)],
            fun s hs => ⟨s, by
              rw [objGet_objSet_other _ "main_workflow" "sub_workflows" _ (by decide)]
              exact hs, rfl⟩,
            hMrelGen _ (objGet_objSet_same _ _ _)⟩
        | int n =>
          rw [hsw] at h
          cases h
          exact ⟨_, rfl,
            objGet_objSet_other _ "main_workflow" "entrypoint" _ (by decide),
            by rw [objGet_objSet_other _ "main_workflow" "sub_workflows" _ (by decide)],
            fun s hs => ⟨s, by
              rw [objGet_objSet_other _ "main_workflow" "sub_workflows" _ (by decide)]
              exact hs, rfl⟩,
            hMrelGen _ (objGet_objSet_same _ _ _)⟩
        | str s2 =>
          rw [hsw] at h
          cases h
          exact ⟨_, rfl,
            objGet_objSet_other _ "main_workflow" "entrypoint" _ (by decide),
            by rw [objGet_objSet_other _ "main_workflow" "sub_workflows" _ (by decide)],
            fun s hs => ⟨s, by
              rw [objGet_objSet_other _ "main_workflow" "sub_workflows" _ (by decide)]
              exact hs, rfl⟩,
            hMrelGen _ (objGet_objSet_same _ _ _)⟩
        | obj fs2 =>
          rw [hsw] at h
          cases h
          exact ⟨_, rfl,
            objGet_objSet_other _ "main_workflow" "entrypoint" _ (by decide),
            by rw [objGet_objSet_other _ "main_workflow" "sub_workflows" _ (by decide)],
            fun s hs => ⟨s, by
              rw [objGet_objSet_other _ "main_workflow" "sub_workflows" _ (by decide)]
              exact hs, rfl⟩,
            hMrelGen _ (objGet_objSet_same _ _ _)⟩
      | none =>
        rw [hsw] at h
        cases h
        exact ⟨_, rfl,
          objGet_objSet_other _ "main_workflow" "entrypoint" _ (by decide),
          by rw [objGet_objSet_other _ "main_workflow" "sub_workflows" _ (by decide)],
          fun s hs => ⟨s, by
            rw [objGet_objSet_other _ "main_workflow" "sub_workflows" _ (by decide)]
            exact hs, rfl⟩,
          hMrelGen _ (objGet_objSet_same _ _ _)⟩
  | none =>
    rw [hmw] at h
    dsimp only [] at h
    cases hsw : objGet zfs "sub_workflows" with
    | some sv =>
      cases sv with
      | arr subs =>
        rw [hsw] at h
        dsimp only [] at h
        cases hsm : subs.mapM mapEmits with
        | error e => rw [hsm] at h; exact absurd h (by simp)
        | ok subs2 =>
          rw [hsm] at h
          cases h
          refine ⟨objSet zfs "sub_workflows" (.arr subs2), rfl, ?_, ?_, ?_, .inl (by
            rw [objGet_objSet_other _ "sub_workflows" "main_workflow" _ (by decide), hmw])⟩
          · rw [objGet_objSet_other _ "sub_workflows" "entrypoint" _ (by decide)]
          · rw [objGet_objSet_same]
            simp only [Option.getD_some, pyTruthy]
            rw [isEmpty_eq_of_length subs2 subs
              ((mapM_forall2 mapEmits subs subs2 hsm).length_eq.symm)]
          · intro s hs
            simp only [Option.getD_some, pyIterElems, Except.ok.injEq] at hs
            subst hs
            refine ⟨subs2, ?_, mapEmits_names subs subs2 hsm⟩
            rw [objGet_objSet_same]
            rfl
      | null => rw [hsw] at h; cases h; exact ⟨zfs, rfl, rfl, by rw [hsw],
        fun s hs => ⟨s, by rw [hsw]; exact hs, rfl⟩, .inl (by rw [hmw])⟩
      | bool bb => rw [hsw] at h; cases h; exact ⟨zfs, rfl, rfl, by rw [hsw],
        fun s hs => ⟨s, by rw [hsw]; exact hs, rfl⟩, .inl (by rw [hmw])⟩
      | int n => rw [hsw] at h; cases h; exact ⟨zfs, rfl, rfl, by rw [hsw],
        fun s hs => ⟨s, by rw [hsw]; exact hs, rfl⟩, .inl (by rw [hmw])⟩
      | str s2 => rw [hsw] at h; cases h; exact ⟨zfs, rfl, rfl, by rw [hsw],
        fun s hs => ⟨s, by rw [hsw]; exact hs, rfl⟩, .inl (by rw [hmw])⟩
      | obj fs2 => rw [hsw] at h; cases h; exact ⟨zfs, rfl, rfl, by rw [hsw],
        fun s hs => ⟨s, by rw [hsw]; exact hs, rfl⟩, .inl (by rw [hmw])⟩
    | none => rw [hsw] at h; cases h; exact ⟨zfs, rfl, rfl, by rw [hsw],
        fun s hs => ⟨s, by rw [hsw]; exact hs, rfl⟩, .inl (by rw [hmw])⟩

/-- Helper (C7): the emit pass preserves deduplication fixpoints. -/
theorem dedup_fix_canonEmits (z w : JVal)
    (hz : deduplicate_logic z = .ok z) (h : canonEmits z = .ok w) :
    deduplicate_logic w = .ok w := by
  cases z with
  | obj zfs =>
    obtain ⟨Yfs, hw, _, hT, hI, hMrel⟩ := canonEmits_obj_rel zfs w h
    subst hw
    exact dedup_fix_transfer zfs Yfs hz hT hI hMrel
  | null => exact absurd hz (by simp [deduplicate_logic])
  | bool b => exact absurd hz (by simp [deduplicate_logic])
  | int n => exact absurd hz (by simp [deduplicate_logic])
  | str s => exact absurd hz (by simp [deduplicate_logic])
  | arr xs => exact absurd hz (by simp [deduplicate_logic])

/-- Helper (C7): the emit pass preserves entrypoint-pass fixpoints. -/
theorem entry_fix_canonEmits (z w : JVal)
    (hz : canonEntrypoint z = .ok z) (h : canonEmits z = .ok w) :
    canonEntrypoint w = .ok w := by
  cases z with
  | obj zfs =>
    obtain ⟨Yfs, hw, hep, _, _, _⟩ := canonEmits_obj_rel zfs w h
    subst hw
    exact entry_fix_shift zfs Yfs hep hz
  | null => cases h; exact hz
  | bool b => cases h; exact hz
  | int n => cases h; exact hz
  | str s => cases h; exact hz
  | arr xs => cases h; exact hz

/-- **C7 counterexample.**  The canonicalizer is not idempotent: on `cexC7`
(declared inputs `a` and `b.a`, the latter containing the former) one
application rewrites the call arguments to the inputs positionally, and a
second application rewrites the `b.a` argument again to `a` — the two
outputs differ (Python `==`, modelled by `beqJVal`, and Lean equality). -/
theorem c7_canonicalize_not_idempotent :
    canonicalize cexC7 = .ok cexC7once ∧
    canonicalize cexC7once = .ok cexC7twice ∧
    beqJVal cexC7once cexC7twice = false ∧
    cexC7once ≠ cexC7twice := by
  refine ⟨rfl, rfl, rfl, ?_⟩
  intro h
  simp [cexC7once, cexC7twice] at h

/-- **C7 (amended).**  The canonicalizer is idempotent on every candidate
tree whose declared main-workflow inputs are root-closed strings (each
input is a string whose root identifier — the text before the first dot —
is itself a declared input; in particular whenever no input contains a
dot): if `canonicalize x = ok y` then `canonicalize y = ok y`.  Without
that restriction idempotence fails (`c7_canonicalize_not_idempotent`). -/
theorem c7_canonicalize_idem (x y : JVal)
    (hH : rootClosedStrInputs (extractedInputs x))
    (h : canonicalize x = .ok y) : canonicalize y = .ok y := by
  unfold canonicalize at h
  cases h1 : deduplicate_logic x with
  | error e => rw [h1] at h; exact absurd h (by simp)
  | ok x1 =>
    rw [h1] at h
    dsimp only [] at h
    cases h2 : canonEntrypoint x1 with
    | error e => rw [h2] at h; exact absurd h (by simp)
    | ok x2 =>
      rw [h2] at h
      dsimp only [] at h
      have hd1 : deduplicate_logic x1 = .ok x1 := deduplicate_logic_idem x x1 hH h1
      have hd2 : deduplicate_logic x2 = .ok x2 := dedup_fix_canonEntrypoint x1 x2 hd1 h2
      have hdy : deduplicate_logic y = .ok y := dedup_fix_canonEmits x2 y hd2 h
      have he2 : canonEntrypoint x2 = .ok x2 := canonEntrypoint_idem x1 x2 h2
      have hey : canonEntrypoint y = .ok y := entry_fix_canonEmits x2 y he2 h
      have hmy : canonEmits y = .ok y := canonEmits_idem x2 y h
      unfold canonicalize
      rw [hdy]
      dsimp only []
      rw [hey]
      dsimp only []
      exact hmy

/-- Witness for the amended C7 theorem at a concrete tree: `wit7` has the
single dot-free input `reads`, one canonicalization pass rewrites its call
argument to that input, and a second pass returns the output unchanged. -/
theorem c7_canonicalize_idem_witness :
    rootClosedStrInputs (extractedInputs wit7) ∧
    canonicalize wit7once = .ok wit7once := by
  have hH : rootClosedStrInputs (extractedInputs wit7) := by
    intro j hj
    have hj2 : j ∈ [JVal.str "reads"] := hj
    rw [List.mem_singleton] at hj2
    exact ⟨"reads", hj2, List.mem_singleton.mpr rfl⟩
  exact ⟨hH, c7_canonicalize_idem wit7 wit7once hH (by rfl)⟩

end IzsLLM




